import Mathlib

/-!
# Verification of the IdealQuery query-optimizer core

A shallow embedding of the Go sources of the IdealQuery teaching-grade
relational query optimizer, together with theorems settling the frozen
claims about it.

Modelling conventions.
* Go `float64` is modelled as `ℚ`; `int64` as `Int`.  Conversions
  `int64(f)` (truncation toward zero) are `goTrunc`.  The source uses
  only exact decimal constants and additions/multiplications in the
  places the theorems below depend on, and every property proved is
  either an exact evaluation at small concrete inputs or invariant under
  the numeric details (such as the symmetry of the join cost in its two
  children, which holds for IEEE doubles because IEEE addition and
  multiplication are commutative, and holds in `ℚ` for the same reason).
* `math.Log2` (a transcendental on doubles, used only inside the sort
  cost) is passed to the cost functions as an abstract argument
  `lg : ℚ → ℚ`; every theorem about costs is proved for all `lg`.
* Go maps are association lists; map insertion is `listPut`.
* Code paths that panic (unchecked slice indexing such as
  `plan.Children[0]` on an empty child list) are modelled by `Option`
  (`none` = abnormal termination); error returns of the catalog are
  `Except String`.
* Node ids come from a global counter (`generateID`).  The id string
  `"node_%d"` is injective in the counter value, so ids are modelled by
  the counter value itself (a `Nat`).  `Plan.clone` threads the counter
  explicitly.  Inside the optimizer pipeline ids are written but never
  read, so there the freshly generated ids are set to `0` instead of
  threading the counter through every phase.
-/

namespace IdealQuery

/-- Go `interface{}` values as they occur in `Expression.Value`:
operator / column / function-name strings, or literal values. -/
inductive GoVal where
  | str (s : String)
  | int (n : Int)
  | rat (q : ℚ)
  | bool (b : Bool)
  | null

/-- `logical_plan.Expression`: fields Type, Value, Left, Right, Args,
DataType (`src/logical_plan/plan.go`). -/
inductive Expr where
  | mk (typ : String) (value : GoVal) (left : Option Expr) (right : Option Expr)
      (args : List Expr) (dataType : String)

/-- The `Type` field of an expression. -/
def Expr.typ : Expr → String
  | .mk t _ _ _ _ _ => t

/-- The `Value` field of an expression. -/
def Expr.value : Expr → GoVal
  | .mk _ v _ _ _ _ => v

/-- `logical_plan.Predicate`: wraps one (possibly nil) expression. -/
structure Pred where
  expression : Option Expr

/-- `logical_plan.JoinCondition`. -/
structure JoinCond where
  left : Option Expr
  right : Option Expr
  operator : String

/-- `logical_plan.Column` (projection / group-by columns on plan nodes). -/
structure PCol where
  table : String
  name : String
  aliasName : String
deriving DecidableEq

/-- `logical_plan.AggregateFunction`. -/
structure AggFn where
  typ : String
  column : Option Expr
  aliasName : String

/-- `logical_plan.OrderBy`. -/
structure OrdItem where
  expression : Option Expr
  ascending : Bool

/-- Go's `int64(f)` conversion of a float: truncation toward zero. -/
def goTrunc (q : ℚ) : Int :=
  if q < 0 then -(Int.floor (-q)) else Int.floor q

/-- Go's `/` on `int64`: truncated division. -/
def goDiv (a b : Int) : Int :=
  Int.tdiv a b

/-- Insertion into a Go `map[string]V` modelled as an association list:
replace the binding if the key is present, else append. -/
def listPut {α : Type} : List (String × α) → String → α → List (String × α)
  | [], k, v => [(k, v)]
  | (k', v') :: t, k, v => if k' = k then (k, v) :: t else (k', v') :: listPut t k v

/-! ## Catalog (`catalog` package, `src/unnamed/part_005`) -/

/-- `catalog.Bucket`. -/
structure Bucket where
  lowerBound : String
  upperBound : String
  count : Int
  frequency : ℚ
deriving DecidableEq

/-- `catalog.Column`: name, data type, nullability, and the five
per-column statistics overwritten by `UpdateTableStats`. -/
structure CatColumn where
  name : String
  dataType : String
  nullable : Bool
  ndv : Option Int
  minValue : Option String
  maxValue : Option String
  histogram : List Bucket
  nullCount : Option Int
deriving DecidableEq

/-- `catalog.Index`. -/
structure CatIndex where
  name : String
  columns : List String
  unique : Bool
  typ : String
deriving DecidableEq

/-- A stored `*catalog.TableSchema` record.  The Go struct's `Columns`
field is a slice header pointing at a backing array on the heap; the
model keeps the heap explicit: `colsRef` is the index of that backing
array inside `CatalogState.colStore`.  Copying the struct (as
`GetTable`'s `tableCopy := *table` does) copies `name`, `rowCount`,
`indexes`, `metadata` by value but shares `colsRef`. -/
structure TableRec where
  name : String
  colsRef : Nat
  rowCount : Int
  indexes : List CatIndex
  metadata : List (String × String)
deriving DecidableEq

/-- The value a caller passes to `AddTable`: a fresh `TableSchema` whose
column slice becomes a new backing array in the store. -/
structure TableSchemaV where
  name : String
  columns : List CatColumn
  rowCount : Int
  indexes : List CatIndex
  metadata : List (String × String)

/-- `catalog.CatalogManager`: the table map plus the heap of column
backing arrays (`colStore`, addressed by `TableRec.colsRef`). -/
structure CatalogState where
  tables : List (String × TableRec)
  colStore : List (List CatColumn)

/-- The empty catalog, `catalog.NewCatalogManager()`. -/
def CatalogState.empty : CatalogState := ⟨[], []⟩

/-- `CatalogManager.AddTable`.  Fails (and leaves the state unchanged)
when a table of that name is present; otherwise stores the schema, its
column slice becoming a new backing array. -/
def addTable (st : CatalogState) (schema : TableSchemaV) :
    Except String Unit × CatalogState :=
  match st.tables.lookup schema.name with
  | some _ => (.error ("table " ++ schema.name ++ " already exists"), st)
  | none =>
      (.ok (),
        { tables := st.tables ++
            [(schema.name,
              { name := schema.name
                colsRef := st.colStore.length
                rowCount := schema.rowCount
                indexes := schema.indexes
                metadata := schema.metadata })]
          colStore := st.colStore ++ [schema.columns] })

/-- `CatalogManager.GetTable`.  On success returns the *shallow* struct
copy `tableCopy := *table`: scalar fields are copied by value, but the
column slice header (`colsRef`) still points at the shared backing
array. -/
def getTable (st : CatalogState) (tableName : String) : Except String TableRec :=
  match st.tables.lookup tableName with
  | some t => .ok t
  | none => .error ("table " ++ tableName ++ " not found")

/-- Dereference the column slice of a (possibly previously returned)
table record in a given catalog state. -/
def readCols (st : CatalogState) (t : TableRec) : List CatColumn :=
  st.colStore.getD t.colsRef []

/-- `CatalogManager.UpdateTableStats`.  Fails when the table is absent;
otherwise sets the stored record's row count and overwrites, *in place
in the shared backing array*, the five statistics fields of every column
whose name occurs in `columnStats`. -/
def updateTableStats (st : CatalogState) (tableName : String) (rowCount : Int)
    (columnStats : List (String × CatColumn)) :
    Except String Unit × CatalogState :=
  match st.tables.lookup tableName with
  | none => (.error ("table " ++ tableName ++ " not found"), st)
  | some t =>
      (.ok (),
        { tables := st.tables.map (fun kv =>
            if kv.1 = tableName then (kv.1, { kv.2 with rowCount := rowCount }) else kv)
          colStore := st.colStore.set t.colsRef
            ((st.colStore.getD t.colsRef []).map (fun c =>
              match columnStats.lookup c.name with
              | some s =>
                  { c with
                    ndv := s.ndv
                    minValue := s.minValue
                    maxValue := s.maxValue
                    histogram := s.histogram
                    nullCount := s.nullCount }
              | none => c)) })

/-! ## The plan algebra (`logical_plan` package, `src/logical_plan/plan.go`) -/

/-- The non-recursive payload of a `logical_plan.LogicalPlan` node:
every field of the Go struct except `Children`. -/
structure NodeData where
  id : Nat
  nodeType : String
  tableName : String
  aliasName : String
  predicate : Option Pred
  projections : List PCol
  joinType : String
  joinCondition : Option JoinCond
  groupBy : List PCol
  aggregates : List AggFn
  orderBy : List OrdItem
  limitCount : Option Int
  offsetCount : Option Int
  estimatedRows : Option Int
  estimatedCost : Option ℚ
  metadata : List (String × String)

mutual
/-- `logical_plan.LogicalPlan`: payload plus the ordered child list. -/
inductive Plan where
  | node (d : NodeData) (children : PlanList)
/-- `[]*logical_plan.LogicalPlan`. -/
inductive PlanList where
  | nil
  | cons (hd : Plan) (tl : PlanList)
end

/-- Payload of a plan node. -/
def Plan.data : Plan → NodeData
  | .node d _ => d

/-- Children of a plan node. -/
def Plan.children : Plan → PlanList
  | .node _ cs => cs

/-- `len` of a child list. -/
def PlanList.length : PlanList → Nat
  | .nil => 0
  | .cons _ t => t.length + 1

mutual
/-- Structural size of a plan (termination measure for the rewrite
rules, which recurse into freshly built nodes). -/
def Plan.psize : Plan → Nat
  | .node _ cs => 1 + cs.plsize
/-- Structural size of a child list. -/
def PlanList.plsize : PlanList → Nat
  | .nil => 0
  | .cons h t => 1 + h.psize + t.plsize
end

/-- A zero-valued `NodeData`, matching Go's zero values for the fields a
node constructor does not set ("" for strings, nil for pointers and
slices, the fresh empty metadata map). -/
def zeroData : NodeData :=
  { id := 0
    nodeType := ""
    tableName := ""
    aliasName := ""
    predicate := none
    projections := []
    joinType := ""
    joinCondition := none
    groupBy := []
    aggregates := []
    orderBy := []
    limitCount := none
    offsetCount := none
    estimatedRows := none
    estimatedCost := none
    metadata := [] }

/-- `logical_plan.NewScanNode` (pipeline convention: id 0). -/
def mkScanNode (tableName aliasName : String) : Plan :=
  .node { zeroData with
    nodeType := "scan"
    tableName := tableName
    aliasName := aliasName } .nil

/-- `logical_plan.NewFilterNode` (pipeline convention: id 0). -/
def mkFilterNode (child : Plan) (predicate : Option Pred) : Plan :=
  .node { zeroData with nodeType := "filter", predicate := predicate }
    (.cons child .nil)

/-- The payload of a `logical_plan.NewProjectNode` node. -/
def projectData (projections : List PCol) : NodeData :=
  { zeroData with nodeType := "project", projections := projections }

/-- `logical_plan.NewProjectNode` (pipeline convention: id 0). -/
def mkProjectNode (child : Plan) (projections : List PCol) : Plan :=
  .node (projectData projections) (.cons child .nil)

/-- The payload of a `logical_plan.NewJoinNode` node. -/
def joinData (joinType : String) (condition : Option JoinCond) : NodeData :=
  { zeroData with
    nodeType := "join"
    joinType := joinType
    joinCondition := condition }

/-- `logical_plan.NewJoinNode` (pipeline convention: id 0). -/
def mkJoinNode (left right : Plan) (joinType : String)
    (condition : Option JoinCond) : Plan :=
  .node (joinData joinType condition) (.cons left (.cons right .nil))

/-- `logical_plan.NewLimitNode` (pipeline convention: id 0). -/
def mkLimitNode (child : Plan) (limit offset : Option Int) : Plan :=
  .node { zeroData with
    nodeType := "limit"
    limitCount := limit
    offsetCount := offset } (.cons child .nil)

/-! ## Cost model (`cost_model` package, `src/backend/cost_model/cost_model.go`) -/

/-- `cost_model.CostEstimate`. -/
structure CostEstimate where
  totalCost : ℚ
  cpuCost : ℚ
  ioCost : ℚ
  networkCost : ℚ
  memoryCost : ℚ
  cardinality : Int
deriving DecidableEq

/-- The zero `&CostEstimate{}` returned on guard failures. -/
def zeroEstimate : CostEstimate := ⟨0, 0, 0, 0, 0, 0⟩

/-- `SimpleCostModel.estimateSelectivity`: selectivity from the
predicate's top operator only (the `Value` of its root expression);
`1.0` for a nil predicate or nil expression.  Note the source's table:
`=` is 0.1 unconditionally, `LIKE` is 0.2, and there are `IN` /
`IS NULL` / `IS NOT NULL` cases. -/
def estimateSelectivity (predicate : Option Pred) : ℚ :=
  match predicate with
  | none => 1
  | some pr =>
      match pr.expression with
      | none => 1
      | some e =>
          match e.value with
          | .str s =>
              if s = "=" then 1/10
              else if s = "<" ∨ s = ">" ∨ s = "<=" ∨ s = ">=" then 33/100
              else if s = "LIKE" then 1/5
              else if s = "IN" then 3/10
              else if s = "IS NULL" then 1/20
              else if s = "IS NOT NULL" then 19/20
              else 1/2
          | _ => 1/2

/-- The Scan case of `EstimateCardinality`: the catalog row count, or
1000 when `GetTable` fails. -/
def rowCountOrDefault (st : CatalogState) (tableName : String) : Int :=
  match getTable st tableName with
  | .ok t => t.rowCount
  | .error _ => 1000

/-- `SimpleCostModel.EstimateCardinality`.  `none` models the one Go
panic path: a Limit node with a non-nil `LimitCount` reads
`plan.Children[0]` before any length check.  (The function's `error`
result is always nil in the source — every `if err != nil` branch in it
is dead — so `Option` faithfully captures normal vs. abnormal exit.) -/
def card (st : CatalogState) : Plan → Option Int
  | .node d cs =>
    if d.nodeType = "scan" then
      some (rowCountOrDefault st d.tableName)
    else if d.nodeType = "filter" then
      match cs with
      | .nil => some 0
      | .cons c0 _ => do
          let childCard ← card st c0
          some (goTrunc ((childCard : ℚ) * estimateSelectivity d.predicate))
    else if d.nodeType = "project" then
      match cs with
      | .nil => some 0
      | .cons c0 _ => card st c0
    else if d.nodeType = "join" then
      match cs with
      | .cons a tl =>
          match tl with
          | .cons b _ => do
              let leftCard ← card st a
              let rightCard ← card st b
              some
                (if d.joinType = "cross" then leftCard * rightCard
                 else if d.joinType = "inner" then
                   goTrunc ((leftCard * rightCard : Int) * (1/10 : ℚ))
                 else if d.joinType = "left" then leftCard
                 else if d.joinType = "right" then rightCard
                 else if d.joinType = "full" then leftCard + rightCard
                 else goTrunc ((leftCard * rightCard : Int) * (1/10 : ℚ)))
          | .nil => some 0
      | .nil => some 0
    else if d.nodeType = "aggregate" then
      match cs with
      | .nil => some 1
      | .cons c0 _ => do
          let childCard ← card st c0
          if d.groupBy.length = 0 then some 1
          else some (goTrunc ((childCard : ℚ) * (1/10)))
    else if d.nodeType = "sort" then
      match cs with
      | .nil => some 0
      | .cons c0 _ => card st c0
    else if d.nodeType = "limit" then
      -- the `plan.LimitCount != nil` test and dereference, as `Option.elim`
      d.limitCount.elim
        (match cs with
         | .nil => some 0
         | .cons c0 _ => card st c0)
        (fun limit =>
          match cs with
          | .cons c0 _ => do
              let childCard ← card st c0
              some (if childCard < limit then childCard else limit)
          | .nil => none)
    else some 1000

/-- `SimpleCostModel.estimateScanCost` (not recursive).  Constants from
`NewSimpleCostModel`: `SeqScanCostPerPage = 1.0`,
`CPUCostPerTuple = 0.01`. -/
def scanCost (st : CatalogState) (d : NodeData) : CostEstimate :=
  match getTable st d.tableName with
  | .error _ => ⟨1000, 200, 800, 0, 0, 1000⟩
  | .ok t =>
      let pages : ℚ :=
        if (t.rowCount : ℚ) / 100 < 1 then 1 else (t.rowCount : ℚ) / 100
      let ioCost := pages * 1
      let cpuCost := (t.rowCount : ℚ) * (1/100)
      ⟨ioCost + cpuCost, cpuCost, ioCost, 0, 0, t.rowCount⟩

/-- `SimpleCostModel.EstimateCost` with the per-operator helpers
(`estimateFilterCost`, …, `estimateLimitCost`) inlined at their
dispatch sites.  `lg` stands for `math.Log2`.  Constants from
`NewSimpleCostModel`: `CPUCostPerTuple = 0.01`, `JoinCostFactor = 1.5`,
`SortCostFactor = 2.0`, `HashCostFactor = 1.2`.  As with `card`, the
source's `error` result is always nil and `none` models a panic in a
nested `EstimateCardinality` call. -/
def cost (lg : ℚ → ℚ) (st : CatalogState) : Plan → Option CostEstimate
  | .node d cs =>
    if d.nodeType = "scan" then
      some (scanCost st d)
    else if d.nodeType = "filter" then
      match cs with
      | .nil => some zeroEstimate
      | .cons c0 _ => do
          let childCost ← cost lg st c0
          let selectivity := estimateSelectivity d.predicate
          let outputCardinality := goTrunc ((childCost.cardinality : ℚ) * selectivity)
          let filterCpuCost := (childCost.cardinality : ℚ) * (1/100) * (1/2)
          some ⟨childCost.totalCost + filterCpuCost, childCost.cpuCost + filterCpuCost,
            childCost.ioCost, childCost.networkCost, childCost.memoryCost,
            outputCardinality⟩
    else if d.nodeType = "project" then
      match cs with
      | .nil => some zeroEstimate
      | .cons c0 _ => do
          let childCost ← cost lg st c0
          let projectionCpuCost := (childCost.cardinality : ℚ) * (1/100) * (1/10)
          some ⟨childCost.totalCost + projectionCpuCost,
            childCost.cpuCost + projectionCpuCost, childCost.ioCost,
            childCost.networkCost, childCost.memoryCost, childCost.cardinality⟩
    else if d.nodeType = "join" then
      match cs with
      | .cons a tl =>
          match tl with
          | .cons b _ => do
              let leftCost ← cost lg st a
              let rightCost ← cost lg st b
              let joinCpuCost :=
                ((leftCost.cardinality * rightCost.cardinality : Int) : ℚ) *
                  (1/100) * (3/2)
              let outputCardinality ← card st (.node d cs)
              some ⟨leftCost.totalCost + rightCost.totalCost + joinCpuCost,
                leftCost.cpuCost + rightCost.cpuCost + joinCpuCost,
                leftCost.ioCost + rightCost.ioCost,
                leftCost.networkCost + rightCost.networkCost,
                leftCost.memoryCost + rightCost.memoryCost, outputCardinality⟩
          | .nil => some zeroEstimate
      | .nil => some zeroEstimate
    else if d.nodeType = "aggregate" then
      match cs with
      | .nil => some zeroEstimate
      | .cons c0 _ => do
          let childCost ← cost lg st c0
          let aggCpuCost := (childCost.cardinality : ℚ) * (1/100) * (6/5)
          let outputCardinality ← card st (.node d cs)
          some ⟨childCost.totalCost + aggCpuCost, childCost.cpuCost + aggCpuCost,
            childCost.ioCost, childCost.networkCost,
            childCost.memoryCost + (childCost.cardinality : ℚ) * (1/10),
            outputCardinality⟩
    else if d.nodeType = "sort" then
      match cs with
      | .nil => some zeroEstimate
      | .cons c0 _ => do
          let childCost ← cost lg st c0
          if childCost.cardinality ≤ 1 then some childCost
          else
            let sortCpuCost :=
              (childCost.cardinality : ℚ) * lg (childCost.cardinality : ℚ) * (1/100) * 2
            some ⟨childCost.totalCost + sortCpuCost, childCost.cpuCost + sortCpuCost,
              childCost.ioCost, childCost.networkCost,
              childCost.memoryCost + (childCost.cardinality : ℚ) * (1/5),
              childCost.cardinality⟩
    else if d.nodeType = "limit" then
      match cs with
      | .nil => some zeroEstimate
      | .cons c0 _ => do
          let childCost ← cost lg st c0
          let outputCardinality ← card st (.node d cs)
          d.limitCount.elim (some childCost)
            (fun k =>
              if k < childCost.cardinality then
                let reductionFactor := (k : ℚ) / (childCost.cardinality : ℚ)
                some ⟨childCost.totalCost * reductionFactor,
                  childCost.cpuCost * reductionFactor,
                  childCost.ioCost * reductionFactor,
                  childCost.networkCost * reductionFactor,
                  childCost.memoryCost * reductionFactor, outputCardinality⟩
              else some childCost)
    else do
      let cardinality ← card st (.node d cs)
      some ⟨(cardinality : ℚ) * (1/100), (cardinality : ℚ) * (1/100), 0, 0, 0,
        cardinality⟩

/-! ## Plan utilities (`src/logical_plan/plan.go`, `src/enumerator/enumerator.go`) -/

mutual
/-- `PlanEnumerator.getPlanSignature`: variant tag, `:`-prefixed table
name when non-empty, then parenthesised child signatures in order.  (The
source's `nil` guard is unreachable in the model, where child pointers
are never nil.) -/
def Plan.sig : Plan → String
  | .node d cs =>
      d.nodeType ++ (if d.tableName ≠ "" then ":" ++ d.tableName else "") ++ cs.sigList
/-- Child part of a plan signature. -/
def PlanList.sigList : PlanList → String
  | .nil => ""
  | .cons h t => "(" ++ h.sig ++ ")" ++ t.sigList
end

mutual
/-- `LogicalPlan.Clone`, threading the global id counter: the clone's
own id is minted first (`generateID` increments then formats), then the
children are cloned left to right.  All other fields are copied; the
deep copies of predicate, join condition and metadata made by the
source are structurally equal to their originals, hence are the
originals in this value model. -/
def Plan.clone : Plan → Nat → Plan × Nat
  | .node d cs, n =>
      let r := PlanList.cloneList cs (n + 1)
      (.node { d with id := n + 1 } r.1, r.2)
/-- Clone a child list left to right, threading the id counter. -/
def PlanList.cloneList : PlanList → Nat → PlanList × Nat
  | .nil, n => (.nil, n)
  | .cons h t, n =>
      let rh := h.clone n
      let rt := PlanList.cloneList t rh.2
      (.cons rh.1 rt.1, rt.2)
end

mutual
/-- All node ids of a plan tree. -/
def Plan.ids : Plan → List Nat
  | .node d cs => d.id :: cs.idsList
/-- All node ids of a child list. -/
def PlanList.idsList : PlanList → List Nat
  | .nil => []
  | .cons h t => h.ids ++ t.idsList
end

mutual
/-- The table names of the `Scan` nodes of a plan, in tree order (their
multiset is invariant P1's subject). -/
def Plan.scans : Plan → List String
  | .node d cs => (if d.nodeType = "scan" then [d.tableName] else []) ++ cs.scansList
/-- Scan table names of a child list. -/
def PlanList.scansList : PlanList → List String
  | .nil => []
  | .cons h t => h.scans ++ t.scansList
end

/-- Invariant I1 of the spec: arity matches the variant (`Scan`: 0,
`Filter`/`Project`/`Aggregate`/`Sort`/`Limit`: 1, `Join`: 2; the
reserved variants are unconstrained). -/
def arityOk (nodeType : String) (len : Nat) : Bool :=
  if nodeType = "scan" then len == 0
  else if nodeType = "filter" ∨ nodeType = "project" ∨ nodeType = "aggregate" ∨
      nodeType = "sort" ∨ nodeType = "limit" then len == 1
  else if nodeType = "join" then len == 2
  else true

mutual
/-- A plan is well-formed when every node satisfies I1. -/
def Plan.wfB : Plan → Bool
  | .node d cs => arityOk d.nodeType cs.length && cs.wfList
/-- All members of a child list are well-formed. -/
def PlanList.wfList : PlanList → Bool
  | .nil => true
  | .cons h t => h.wfB && t.wfList
end

/-! ## Rule engine (`optimizer` package, `src/backend/optimizer/rule_based.go`) -/

/-- `optimizer.canPushFilterBelowProject`: the renaming/computed-column
check is not implemented — the source returns `true` for every input. -/
def canPushFilterBelowProject (_predicate : Option Pred) (_projectNode : Plan) : Bool :=
  true

/-- `optimizer.canPushFilterToJoinSides`: the column-side analysis is
not implemented — the source reports `(false, false)` (neither side
pushable) for every input. -/
def canPushFilterToJoinSides (_predicate : Option Pred) (_joinNode : Plan) : Bool × Bool :=
  (false, false)

/-- `optimizer.isRedundantProjection`: a single `*` projection. -/
def isRedundantProjection (projections : List PCol) : Bool :=
  match projections with
  | [c] => c.name == "*"
  | _ => false

mutual
/-- `PredicatePushdownRule.applyRecursive`.  At a Filter with exactly
one child: above a Project the filter is pushed below it (the guard is
constantly true) — this reads the project's `Children[0]`, a panic
(`none`) when the project has no children; above a Join, only the
`changed` flag would be set when a side is pushable, which
`canPushFilterToJoinSides` never reports, and no restructuring happens.
Afterwards the (possibly rewritten) node's children are processed
recursively, a child being replaced only when its recursion reports a
change. -/
def ppApply : Plan → Option (Plan × Bool)
  | .node d (.cons (.node cd ccs) .nil) =>
      if d.nodeType = "filter" then
        if cd.nodeType = "project" then
          if canPushFilterBelowProject d.predicate (.node cd ccs) then
            match ccs with
            | .cons gc _ =>
                match ppList (.cons (mkFilterNode gc d.predicate) .nil) with
                | none => none
                | some r => some (.node (projectData cd.projections) r.1, true || r.2)
            | .nil => none
          else
            match ppList (.cons (.node cd ccs) .nil) with
            | none => none
            | some r => some (.node d r.1, r.2)
        else if cd.nodeType = "join" then
          let sides := canPushFilterToJoinSides d.predicate (.node cd ccs)
          match ppList (.cons (.node cd ccs) .nil) with
          | none => none
          | some r => some (.node d r.1, (sides.1 || sides.2) || r.2)
        else
          match ppList (.cons (.node cd ccs) .nil) with
          | none => none
          | some r => some (.node d r.1, r.2)
      else
        match ppList (.cons (.node cd ccs) .nil) with
        | none => none
        | some r => some (.node d r.1, r.2)
  | .node d .nil =>
      match ppList .nil with
      | none => none
      | some r => some (.node d r.1, r.2)
  | .node d (.cons c0 (.cons c1 t)) =>
      match ppList (.cons c0 (.cons c1 t)) with
      | none => none
      | some r => some (.node d r.1, r.2)
  termination_by p => p.psize
  decreasing_by
    all_goals simp [Plan.psize, PlanList.plsize, mkFilterNode] <;> omega
/-- The `for i, child := range plan.Children` loop of
`applyRecursive`: each child is rewritten, and replaces the original
only when its own flag is set. -/
def ppList : PlanList → Option (PlanList × Bool)
  | .nil => some (.nil, false)
  | .cons h t =>
      match ppApply h with
      | none => none
      | some rh =>
          match ppList t with
          | none => none
          | some rt => some (.cons (if rh.2 then rh.1 else h) rt.1, rh.2 || rt.2)
  termination_by l => l.plsize
  decreasing_by
    all_goals simp [Plan.psize, PlanList.plsize] <;> omega
end

mutual
/-- `ProjectionPushdownRule.applyRecursive`: a redundant projection
(`[*]`) with exactly one child is replaced by that child; then the
children of the (possibly replaced) node are processed recursively. -/
def prApply : Plan → Plan × Bool
  | .node d (.cons (.node cd ccs) .nil) =>
      if d.nodeType = "project" ∧ isRedundantProjection d.projections then
        let r := prList ccs
        (.node cd r.1, true || r.2)
      else
        let r := prList (.cons (.node cd ccs) .nil)
        (.node d r.1, r.2)
  | .node d .nil =>
      let r := prList .nil
      (.node d r.1, r.2)
  | .node d (.cons c0 (.cons c1 t)) =>
      let r := prList (.cons c0 (.cons c1 t))
      (.node d r.1, r.2)
  termination_by p => p.psize
  decreasing_by
    all_goals simp [Plan.psize, PlanList.plsize] <;> omega
/-- Child loop of `ProjectionPushdownRule.applyRecursive`. -/
def prList : PlanList → PlanList × Bool
  | .nil => (.nil, false)
  | .cons h t =>
      let rh := prApply h
      let rt := prList t
      (.cons (if rh.2 then rh.1 else h) rt.1, rh.2 || rt.2)
  termination_by l => l.plsize
  decreasing_by
    all_goals simp [Plan.psize, PlanList.plsize] <;> omega
end

/-- `ConstantFoldingRule.Apply`: a declared no-op. -/
def cfApply (p : Plan) : Plan × Bool := (p, false)

/-- `JoinReorderingRule.Apply`: a declared no-op (join reordering is
cost-based). -/
def jrApply (p : Plan) : Plan × Bool := (p, false)

/-- One pass of `RuleBasedOptimizer.Optimize`'s inner rule loop, over
the rule list `[PredicatePushdown, ProjectionPushdown, ConstantFolding,
JoinReordering]`: each applied rule replaces the current plan exactly
when it reports a change, and the pass reports whether any rule did. -/
def runRulesOnce (p : Plan) : Option (Plan × Bool) :=
  match ppApply p with
  | none => none
  | some r1 =>
      let q1 := if r1.2 then r1.1 else p
      let r2 := prApply q1
      let q2 := if r2.2 then r2.1 else q1
      let r3 := cfApply q2
      let q3 := if r3.2 then r3.1 else q2
      let r4 := jrApply q3
      let q4 := if r4.2 then r4.1 else q3
      some (q4, r1.2 || (r2.2 || (r3.2 || r4.2)))

/-- The fixed-point iteration of `RuleBasedOptimizer.Optimize`
(`maxIterations = 10`): repeat passes while some rule reports a change,
up to the bound. -/
def rbLoop : Nat → Plan → Option Plan
  | 0, p => some p
  | n + 1, p =>
      match runRulesOnce p with
      | none => none
      | some r => if r.2 then rbLoop n r.1 else some r.1

/-- `RuleBasedOptimizer.Optimize` (= `OptimizeWithRules`): clone the
input, then iterate the rules.  The explain trace is not modelled — it
records deep-cloned snapshots and affects no result. -/
def rbOptimize (p : Plan) : Option Plan :=
  rbLoop 10 (p.clone 0).1

/-! ## Cost-based optimizer (`src/backend/optimizer/cost_based.go`) -/

mutual
/-- `CostBasedOptimizer.optimizeJoinOrder`: at a Join with exactly two
children, estimate the cost of the node and of the candidate
`NewJoinNode(right, left, joinType, joinCondition)`; adopt the swapped
node when its total cost is strictly lower; then recurse into the
(possibly swapped) node's children.  (The source's `err != nil` early
returns are dead: `EstimateCost` never returns a non-nil error, its
only abnormal exit being the panic that `none` models.) -/
def optJoinOrder (lg : ℚ → ℚ) (st : CatalogState) : Plan → Option Plan
  | .node d (.cons a (.cons b .nil)) =>
      if d.nodeType = "join" then
        match cost lg st (.node d (.cons a (.cons b .nil))) with
        | none => none
        | some currentCost =>
            match cost lg st (mkJoinNode b a d.joinType d.joinCondition) with
            | none => none
            | some swappedCost =>
                if swappedCost.totalCost < currentCost.totalCost then
                  match optJoinOrder lg st b with
                  | none => none
                  | some b' =>
                      match optJoinOrder lg st a with
                      | none => none
                      | some a' =>
                          some (.node (joinData d.joinType d.joinCondition)
                            (.cons b' (.cons a' .nil)))
                else
                  match optJoinOrder lg st a with
                  | none => none
                  | some a' =>
                      match optJoinOrder lg st b with
                      | none => none
                      | some b' => some (.node d (.cons a' (.cons b' .nil)))
      else
        match optJoinList lg st (.cons a (.cons b .nil)) with
        | none => none
        | some cs' => some (.node d cs')
  | .node d .nil =>
      match optJoinList lg st .nil with
      | none => none
      | some cs' => some (.node d cs')
  | .node d (.cons a .nil) =>
      match optJoinList lg st (.cons a .nil) with
      | none => none
      | some cs' => some (.node d cs')
  | .node d (.cons a (.cons b (.cons c t))) =>
      match optJoinList lg st (.cons a (.cons b (.cons c t))) with
      | none => none
      | some cs' => some (.node d cs')
  termination_by p => p.psize
  decreasing_by
    all_goals simp [Plan.psize, PlanList.plsize, mkJoinNode] <;> omega
/-- The child loop of `optimizeJoinOrder`. -/
def optJoinList (lg : ℚ → ℚ) (st : CatalogState) : PlanList → Option PlanList
  | .nil => some .nil
  | .cons h t =>
      match optJoinOrder lg st h with
      | none => none
      | some h' =>
          match optJoinList lg st t with
          | none => none
          | some t' => some (.cons h' t')
  termination_by l => l.plsize
  decreasing_by
    all_goals simp [Plan.psize, PlanList.plsize] <;> omega
end

/-- Set a key of a node's metadata map. -/
def metaPut (d : NodeData) (k v : String) : NodeData :=
  { d with metadata := listPut d.metadata k v }

mutual
/-- `CostBasedOptimizer.selectPhysicalOperators`: stamp physical
operator choices into node metadata (Join reads `Children[0]` and
`Children[1]` unguarded — `none` when fewer than two children), then
recurse into the children. -/
def selectPhys (st : CatalogState) : Plan → Option Plan
  | .node d cs =>
      if d.nodeType = "join" then
        match cs with
        | .nil => none
        | .cons c0 tl =>
          match tl with
          | .nil => none
          | .cons c1 t2 =>
            match card st c0 with
            | none => none
            | some leftCard =>
                match card st c1 with
                | none => none
                | some rightCard =>
                    let d1 :=
                      if leftCard < 1000 ∧ rightCard < 1000 then
                        metaPut d "physical_operator" "nested_loop_join"
                      else if leftCard < rightCard then
                        metaPut (metaPut d "physical_operator" "hash_join")
                          "build_side" "left"
                      else
                        metaPut (metaPut d "physical_operator" "hash_join")
                          "build_side" "right"
                    let d2 :=
                      if leftCard > 1000000 ∧ rightCard > 1000000 then
                        metaPut d1 "physical_operator" "sort_merge_join"
                      else d1
                    match selectPhysList st (.cons c0 (.cons c1 t2)) with
                    | none => none
                    | some cs' => some (.node d2 cs')
      else if d.nodeType = "aggregate" then
        match card st (.node d cs) with
        | none => none
        | some cardinality =>
            let d' :=
              if d.groupBy.length = 0 then
                metaPut d "physical_operator" "hash_aggregate"
              else if cardinality < 10000 then
                metaPut d "physical_operator" "hash_aggregate"
              else metaPut d "physical_operator" "sort_aggregate"
            match selectPhysList st cs with
            | none => none
            | some cs' => some (.node d' cs')
      else if d.nodeType = "sort" then
        match card st (.node d cs) with
        | none => none
        | some cardinality =>
            let d' :=
              if cardinality < 100000 then metaPut d "physical_operator" "quicksort"
              else metaPut d "physical_operator" "external_sort"
            match selectPhysList st cs with
            | none => none
            | some cs' => some (.node d' cs')
      else if d.nodeType = "scan" then
        match selectPhysList st cs with
        | none => none
        | some cs' => some (.node (metaPut d "scan_type" "sequential") cs')
      else
        match selectPhysList st cs with
        | none => none
        | some cs' => some (.node d cs')
  termination_by p => p.psize
  decreasing_by
    all_goals simp [Plan.psize, PlanList.plsize] <;> omega
/-- The child loop of `selectPhysicalOperators`. -/
def selectPhysList (st : CatalogState) : PlanList → Option PlanList
  | .nil => some .nil
  | .cons h t =>
      match selectPhys st h with
      | none => none
      | some h' =>
          match selectPhysList st t with
          | none => none
          | some t' => some (.cons h' t')
  termination_by l => l.plsize
  decreasing_by
    all_goals simp [Plan.psize, PlanList.plsize] <;> omega
end

mutual
/-- `CostBasedOptimizer.propagateCostEstimates`: children first, then
stamp `estimated_rows` / `estimated_cost` from `EstimateCost` (the
`err != nil` skip is dead code; a panic propagates). -/
def propagate (lg : ℚ → ℚ) (st : CatalogState) : Plan → Option Plan
  | .node d cs =>
      match propagateList lg st cs with
      | none => none
      | some cs' =>
          match cost lg st (.node d cs') with
          | none => none
          | some c =>
              some (.node { d with
                estimatedRows := some c.cardinality
                estimatedCost := some c.totalCost } cs')
  termination_by p => p.psize
  decreasing_by
    all_goals simp [Plan.psize, PlanList.plsize] <;> omega
/-- The child loop of `propagateCostEstimates`. -/
def propagateList (lg : ℚ → ℚ) (st : CatalogState) : PlanList → Option PlanList
  | .nil => some .nil
  | .cons h t =>
      match propagate lg st h with
      | none => none
      | some h' =>
          match propagateList lg st t with
          | none => none
          | some t' => some (.cons h' t')
  termination_by l => l.plsize
  decreasing_by
    all_goals simp [Plan.psize, PlanList.plsize] <;> omega
end

/-- `CostBasedOptimizer.Optimize`: run the rule engine, clone, run the
join-order swap pass, select physical operators, estimate the final
cost (a failure aborts the call), propagate estimates, and return the
annotated plan.  The explain step appended at the end carries no
result. -/
def cbOptimize (lg : ℚ → ℚ) (st : CatalogState) (p : Plan) : Option Plan :=
  match rbOptimize p with
  | none => none
  | some ruleOptimized =>
      match optJoinOrder lg st (ruleOptimized.clone 0).1 with
      | none => none
      | some reordered =>
          match selectPhys st reordered with
          | none => none
          | some physical =>
              match cost lg st physical with
              | none => none
              | some _finalCost => propagate lg st physical

/-! ## Execution simulator (`simulator` package, `src/unnamed/part_003`) -/

/-- The accumulating part of `simulator.ExecutionMetrics`.  CPU time is
in nanoseconds (`time.Duration`'s unit).  `execution_time` (wall clock)
and the per-operator diagnostic map are not modelled; no claim concerns
them. -/
structure Metrics where
  rowsProcessed : Int
  rowsReturned : Int
  cpuTimeNs : Int
  ioOperations : Int
  memoryUsed : Int
  networkTraffic : Int
deriving DecidableEq

/-- The zero metrics a simulation starts from. -/
def Metrics.zero : Metrics := ⟨0, 0, 0, 0, 0, 0⟩

/-- The `while x > 1 { x /= 2; result++ }` loop of
`simulator.logBase2`. -/
def halvings (x : ℚ) : Nat :=
  if 1 < x then halvings (x / 2) + 1 else 0
  termination_by (Int.ceil x).toNat
  decreasing_by
    rename_i h
    have h2 : (2 : Int) ≤ Int.ceil x := by
      have : (1 : Int) < Int.ceil x := Int.lt_ceil.mpr (by exact_mod_cast h)
      omega
    have hlt : Int.ceil (x / 2) < Int.ceil x := by
      rcases le_or_lt x 2 with hx | hx
      · have : Int.ceil (x / 2) ≤ 1 := Int.ceil_le.mpr (by linarith)
        omega
      · have hstep : x / 2 ≤ x - 1 := by linarith
        have := Int.ceil_le_ceil hstep
        have hsub : Int.ceil (x - 1) = Int.ceil x - 1 := by
          have := Int.ceil_sub_int x (1 : Int)
          simpa using this
        omega
    have hpos : (0 : Int) < Int.ceil x := by omega
    omega

/-- `simulator.logBase2`: returns `1` for inputs `≤ 1`, otherwise the
number of halvings needed to bring the input to `≤ 1`. -/
def logBase2 (x : ℚ) : ℚ :=
  if x ≤ 1 then 1 else (halvings x : ℚ)

/-- Input rows of a unary simulator operator: the first child's
`estimated_rows` when present, else 1000. -/
def inputRowsOf (cs : PlanList) : Int :=
  match cs with
  | .cons (.node cd _) _ => cd.estimatedRows.getD 1000
  | .nil => 1000

/-- `GenericSimulator.simulateScan`. -/
def simScan (d : NodeData) (m : Metrics) : Metrics :=
  let estimatedRows := d.estimatedRows.getD 1000
  let pagesRead :=
    if goDiv estimatedRows 100 < 1 then 1 else goDiv estimatedRows 100
  { m with
    ioOperations := m.ioOperations + pagesRead
    rowsProcessed := m.rowsProcessed + estimatedRows
    rowsReturned := m.rowsReturned + estimatedRows
    memoryUsed := m.memoryUsed + estimatedRows * 100
    cpuTimeNs := m.cpuTimeNs + estimatedRows * 10 * 1000 }

/-- `GenericSimulator.simulateFilter` (fixed selectivity 0.3). -/
def simFilter (cs : PlanList) (m : Metrics) : Metrics :=
  let inputRows := inputRowsOf cs
  let outputRows := goTrunc ((inputRows : ℚ) * (3/10))
  { m with
    rowsProcessed := m.rowsProcessed + inputRows
    rowsReturned := outputRows
    cpuTimeNs := m.cpuTimeNs + inputRows * 5 * 1000 }

/-- `GenericSimulator.simulateProject`. -/
def simProject (cs : PlanList) (m : Metrics) : Metrics :=
  let inputRows := inputRowsOf cs
  { m with
    rowsProcessed := m.rowsProcessed + inputRows
    rowsReturned := inputRows
    cpuTimeNs := m.cpuTimeNs + inputRows * 2 * 1000 }

/-- `GenericSimulator.simulateJoin`: child row estimates default to
1000, the algorithm comes from `metadata["physical_operator"]`
(default `nested_loop`), output is uniformly `0.1·L·R`. -/
def simJoin (d : NodeData) (cs : PlanList) (m : Metrics) : Metrics :=
  let rows :=
    match cs with
    | .cons (.node cl _) (.cons (.node cr _) _) =>
        (cl.estimatedRows.getD 1000, cr.estimatedRows.getD 1000)
    | _ => ((1000 : Int), (1000 : Int))
  let leftRows := rows.1
  let rightRows := rows.2
  let joinAlgorithm := (d.metadata.lookup "physical_operator").getD "nested_loop"
  let outputRows := goTrunc ((leftRows * rightRows : Int) * (1/10 : ℚ))
  let eff : Int × Int :=
    if joinAlgorithm = "nested_loop_join" then
      (leftRows * rightRows * 2 * 1000, leftRows * 100)
    else if joinAlgorithm = "hash_join" then
      ((leftRows + rightRows) * 10 * 1000, leftRows * 150)
    else if joinAlgorithm = "sort_merge_join" then
      ((leftRows * goTrunc (logBase2 (leftRows : ℚ)) +
          rightRows * goTrunc (logBase2 (rightRows : ℚ))) * 1000 * 5 +
        (leftRows + rightRows) * 5 * 1000,
       (leftRows + rightRows) * 100)
    else (leftRows * rightRows * 2 * 1000, leftRows * 100)
  { m with
    rowsProcessed := m.rowsProcessed + leftRows + rightRows
    rowsReturned := outputRows
    cpuTimeNs := m.cpuTimeNs + eff.1
    memoryUsed := m.memoryUsed + eff.2 }

/-- `GenericSimulator.simulateAggregate`: one row without group-by,
else `input · 0.7^|group_by|` clamped to `[1, input]`; hash or sort
variant from metadata (default hash). -/
def simAggregate (d : NodeData) (cs : PlanList) (m : Metrics) : Metrics :=
  let inputRows := inputRowsOf cs
  let outputRows :=
    if d.groupBy.length = 0 then 1
    else
      let distinctGroups := goTrunc ((inputRows : ℚ) * (7/10) ^ d.groupBy.length)
      let o1 := if distinctGroups < 1 then 1 else distinctGroups
      if o1 > inputRows then inputRows else o1
  let aggAlgorithm := (d.metadata.lookup "physical_operator").getD "hash_aggregate"
  let eff : Int × Int :=
    if aggAlgorithm = "hash_aggregate" then
      (inputRows * 15 * 1000, outputRows * 200)
    else if aggAlgorithm = "sort_aggregate" then
      (inputRows * goTrunc (logBase2 (inputRows : ℚ)) * 10 * 1000 +
        inputRows * 5 * 1000,
       inputRows * 100)
    else (inputRows * 15 * 1000, outputRows * 200)
  { m with
    rowsProcessed := m.rowsProcessed + inputRows
    rowsReturned := outputRows
    cpuTimeNs := m.cpuTimeNs + eff.1
    memoryUsed := m.memoryUsed + eff.2 }

/-- `GenericSimulator.simulateSort`: quicksort unless metadata says
otherwise or the input exceeds 100000 rows (then external sort with
10000-row runs). -/
def simSort (d : NodeData) (cs : PlanList) (m : Metrics) : Metrics :=
  let inputRows := inputRowsOf cs
  let sortAlgorithm :=
    match d.metadata.lookup "physical_operator" with
    | some alg => alg
    | none => if inputRows > 100000 then "external_sort" else "quicksort"
  let eff : Int × Int × Int :=
    if sortAlgorithm = "quicksort" then
      (inputRows * goTrunc (logBase2 (inputRows : ℚ)) * 20 * 1000,
       inputRows * 150, 0)
    else if sortAlgorithm = "external_sort" then
      let runSize : Int := 10000
      let runs := goDiv (inputRows + runSize - 1) runSize
      (runs * runSize * goTrunc (logBase2 (runSize : ℚ)) * 10 * 1000 +
        inputRows * goTrunc (logBase2 (runs : ℚ)) * 5 * 1000,
       runSize * 150, goDiv (inputRows * 3) 100)
    else if sortAlgorithm = "heapsort" then
      (inputRows * goTrunc (logBase2 (inputRows : ℚ)) * 25 * 1000,
       inputRows * 120, 0)
    else
      (inputRows * goTrunc (logBase2 (inputRows : ℚ)) * 20 * 1000,
       inputRows * 150, 0)
  { m with
    rowsProcessed := m.rowsProcessed + inputRows
    rowsReturned := inputRows
    cpuTimeNs := m.cpuTimeNs + eff.1
    memoryUsed := m.memoryUsed + eff.2.1
    ioOperations := m.ioOperations + eff.2.2 }

/-- `GenericSimulator.simulateLimit`.  Note that the CPU charge uses
the *accumulated* `RowsProcessed` counter, exactly as the source
does. -/
def simLimit (d : NodeData) (cs : PlanList) (m : Metrics) : Metrics :=
  let inputRows := inputRowsOf cs
  let r : Int × Int :=
    match d.limitCount with
    | some limit =>
        match d.offsetCount with
        | some offset =>
            let p0 := offset + limit
            let processedRows := if p0 > inputRows then inputRows else p0
            let outputRows :=
              if processedRows > offset then processedRows - offset else 0
            (outputRows, m.rowsProcessed + processedRows)
        | none =>
            if limit < inputRows then (limit, m.rowsProcessed + limit)
            else (inputRows, m.rowsProcessed + inputRows)
    | none => (inputRows, m.rowsProcessed + inputRows)
  { m with
    rowsProcessed := r.2
    cpuTimeNs := m.cpuTimeNs + r.2 * 1 * 1000
    rowsReturned := r.1 }

mutual
/-- `GenericSimulator.simulateNode`: post-order traversal (children
first), then the per-operator rule; an unsupported node type is the
error return (`none`). -/
def simNode : Plan → Metrics → Option Metrics
  | .node d cs, m =>
      match simList cs m with
      | none => none
      | some m1 =>
          if d.nodeType = "scan" then some (simScan d m1)
          else if d.nodeType = "filter" then some (simFilter cs m1)
          else if d.nodeType = "project" then some (simProject cs m1)
          else if d.nodeType = "join" then some (simJoin d cs m1)
          else if d.nodeType = "aggregate" then some (simAggregate d cs m1)
          else if d.nodeType = "sort" then some (simSort d cs m1)
          else if d.nodeType = "limit" then some (simLimit d cs m1)
          else none
  termination_by p _ => p.psize
  decreasing_by
    all_goals simp [Plan.psize, PlanList.plsize] <;> omega
/-- Sequential simulation of a child list. -/
def simList : PlanList → Metrics → Option Metrics
  | .nil, m => some m
  | .cons h t, m =>
      match simNode h m with
      | none => none
      | some m' => simList t m'
  termination_by l _ => l.plsize
  decreasing_by
    all_goals simp [Plan.psize, PlanList.plsize] <;> omega
end

/-- `GenericSimulator.SimulateExecution` (modulo the unmodelled wall
clock and diagnostic map): simulate from zero metrics. -/
def simExec (p : Plan) : Option Metrics :=
  simNode p Metrics.zero

/-! ## Spec-side definitions used to compare claims with the code -/

/-- Columns referenced by an expression: the `Value` strings of its
`column`-typed nodes (spec §3: a predicate references the columns of
its expression tree). -/
def exprCols : Expr → List String
  | .mk t v l r args _ =>
      (if t = "column" then
        match v with
        | .str s => [s]
        | _ => []
      else []) ++
      (match l with
       | some e => exprCols e
       | none => []) ++
      (match r with
       | some e => exprCols e
       | none => []) ++
      args.attach.flatMap (fun a => exprCols a.1)
  termination_by e => sizeOf e
  decreasing_by
    · simp
      omega
    · simp
      omega
    · have hmem := List.sizeOf_lt_of_mem a.2
      simp
      omega

/-- The table qualifier of a column reference `"t.c"` (the part before
the first dot; an unqualified name is its own qualifier). -/
def qualOf (s : String) : String :=
  ⟨s.data.takeWhile (fun c => c ≠ '.')⟩

mutual
/-- The table qualifiers produced by the scans of a subtree: each scan
contributes its table name, and its alias when set (spec §3: a
predicate is pushable below an operator when every column it references
is produced by a descendant). -/
def Plan.scanQuals : Plan → List String
  | .node d cs =>
      (if d.nodeType = "scan" then
        if d.aliasName ≠ "" then [d.tableName, d.aliasName] else [d.tableName]
      else []) ++ cs.scanQualsList
/-- Scan qualifiers of a child list. -/
def PlanList.scanQualsList : PlanList → List String
  | .nil => []
  | .cons h t => h.scanQuals ++ t.scanQualsList
end

/-- Spec-side condition of the claim: the predicate references only
columns from the given join side (every referenced column's qualifier
is produced by that side's scans). -/
def specReferencesOnlySide (predicate : Option Pred) (side : Plan) : Bool :=
  match predicate with
  | none => false
  | some pr =>
      match pr.expression with
      | none => false
      | some e =>
          (exprCols e ≠ []) && (exprCols e).all (fun c => (qualOf c) ∈ side.scanQuals)

/-! ## Branch equations for the cost model -/

/-- `EstimateCardinality` at a Scan node. -/
theorem card_scan_eq (st : CatalogState) (d : NodeData) (cs : PlanList)
    (h : d.nodeType = "scan") :
    card st (.node d cs) = some (rowCountOrDefault st d.tableName) := by
  rw [card.eq_def]; simp [h]

/-- `EstimateCardinality` at a Filter node with at least one child. -/
theorem card_filter_eq (st : CatalogState) (d : NodeData) (c0 : Plan)
    (rest : PlanList) (h : d.nodeType = "filter") :
    card st (.node d (.cons c0 rest)) =
      (card st c0).bind (fun childCard =>
        some (goTrunc ((childCard : ℚ) * estimateSelectivity d.predicate))) := by
  rw [card.eq_def]; simp [h]

/-- `EstimateCardinality` at a childless Filter node. -/
theorem card_filter_nil_eq (st : CatalogState) (d : NodeData)
    (h : d.nodeType = "filter") :
    card st (.node d .nil) = some 0 := by
  rw [card.eq_def]; simp [h]

/-- `EstimateCardinality` at a Project node with at least one child. -/
theorem card_project_eq (st : CatalogState) (d : NodeData) (c0 : Plan)
    (rest : PlanList) (h : d.nodeType = "project") :
    card st (.node d (.cons c0 rest)) = card st c0 := by
  rw [card.eq_def]; simp [h]

/-- `EstimateCardinality` at a childless Project node. -/
theorem card_project_nil_eq (st : CatalogState) (d : NodeData)
    (h : d.nodeType = "project") :
    card st (.node d .nil) = some 0 := by
  rw [card.eq_def]; simp [h]

/-- `EstimateCardinality` at a Join node with two (or more) children. -/
theorem card_join_eq (st : CatalogState) (d : NodeData) (a b : Plan)
    (rest : PlanList) (h : d.nodeType = "join") :
    card st (.node d (.cons a (.cons b rest))) =
      (card st a).bind (fun leftCard =>
        (card st b).bind (fun rightCard =>
          some
            (if d.joinType = "cross" then leftCard * rightCard
             else if d.joinType = "inner" then
               goTrunc ((leftCard * rightCard : Int) * (1/10 : ℚ))
             else if d.joinType = "left" then leftCard
             else if d.joinType = "right" then rightCard
             else if d.joinType = "full" then leftCard + rightCard
             else goTrunc ((leftCard * rightCard : Int) * (1/10 : ℚ))))) := by
  rw [card.eq_def]; simp [h]

/-- `EstimateCardinality` at a Join node with fewer than two children. -/
theorem card_join_short_eq (st : CatalogState) (d : NodeData) (cs : PlanList)
    (h : d.nodeType = "join") (hcs : cs.length < 2) :
    card st (.node d cs) = some 0 := by
  match cs with
  | .nil => rw [card.eq_def]; simp [h]
  | .cons c0 .nil => rw [card.eq_def]; simp [h]
  | .cons c0 (.cons c1 t) => simp [PlanList.length] at hcs; omega

/-- `EstimateCardinality` at an Aggregate node with at least one child. -/
theorem card_aggregate_eq (st : CatalogState) (d : NodeData) (c0 : Plan)
    (rest : PlanList) (h : d.nodeType = "aggregate") :
    card st (.node d (.cons c0 rest)) =
      (card st c0).bind (fun childCard =>
        if d.groupBy.length = 0 then some 1
        else some (goTrunc ((childCard : ℚ) * (1/10)))) := by
  rw [card.eq_def]; simp [h]

/-- `EstimateCardinality` at a childless Aggregate node. -/
theorem card_aggregate_nil_eq (st : CatalogState) (d : NodeData)
    (h : d.nodeType = "aggregate") :
    card st (.node d .nil) = some 1 := by
  rw [card.eq_def]; simp [h]

/-- `EstimateCardinality` at a Sort node with at least one child. -/
theorem card_sort_eq (st : CatalogState) (d : NodeData) (c0 : Plan)
    (rest : PlanList) (h : d.nodeType = "sort") :
    card st (.node d (.cons c0 rest)) = card st c0 := by
  rw [card.eq_def]; simp [h]

/-- `EstimateCardinality` at a childless Sort node. -/
theorem card_sort_nil_eq (st : CatalogState) (d : NodeData)
    (h : d.nodeType = "sort") :
    card st (.node d .nil) = some 0 := by
  rw [card.eq_def]; simp [h]

/-- `EstimateCardinality` at a Limit node carrying a count, with at
least one child: `min(child, count)`. -/
theorem card_limit_some_eq (st : CatalogState) (d : NodeData) (c0 : Plan)
    (rest : PlanList) (k : Int) (h : d.nodeType = "limit")
    (hk : d.limitCount = some k) :
    card st (.node d (.cons c0 rest)) =
      (card st c0).bind (fun childCard =>
        some (if childCard < k then childCard else k)) := by
  rw [card.eq_def]; simp [h, hk]

/-- The panic path: `EstimateCardinality` at a childless Limit node
carrying a count reads `Children[0]` out of bounds. -/
theorem card_limit_some_nil_eq (st : CatalogState) (d : NodeData) (k : Int)
    (h : d.nodeType = "limit") (hk : d.limitCount = some k) :
    card st (.node d .nil) = none := by
  rw [card.eq_def]; simp [h, hk]

/-- `EstimateCardinality` at a Limit node with no count and at least
one child. -/
theorem card_limit_none_eq (st : CatalogState) (d : NodeData) (c0 : Plan)
    (rest : PlanList) (h : d.nodeType = "limit") (hk : d.limitCount = none) :
    card st (.node d (.cons c0 rest)) = card st c0 := by
  rw [card.eq_def]; simp [h, hk]

/-- `EstimateCardinality` at a childless Limit node with no count. -/
theorem card_limit_none_nil_eq (st : CatalogState) (d : NodeData)
    (h : d.nodeType = "limit") (hk : d.limitCount = none) :
    card st (.node d .nil) = some 0 := by
  rw [card.eq_def]; simp [h, hk]

/-- `EstimateCardinality` at any other variant (`union`, `subquery`,
unknown tags): the default 1000. -/
theorem card_default_eq (st : CatalogState) (d : NodeData) (cs : PlanList)
    (h1 : d.nodeType ≠ "scan") (h2 : d.nodeType ≠ "filter")
    (h3 : d.nodeType ≠ "project") (h4 : d.nodeType ≠ "join")
    (h5 : d.nodeType ≠ "aggregate") (h6 : d.nodeType ≠ "sort")
    (h7 : d.nodeType ≠ "limit") :
    card st (.node d cs) = some 1000 := by
  rw [card.eq_def]; simp [h1, h2, h3, h4, h5, h6, h7]

/-! ## Catalog claims -/

/-- Looking up the updated key after `UpdateTableStats`'s row-count
write. -/
theorem lookup_map_rowCount (l : List (String × TableRec)) (k : String) (rc : Int) :
    (l.map (fun kv =>
      if kv.1 = k then (kv.1, { kv.2 with rowCount := rc }) else kv)).lookup k =
      (l.lookup k).map (fun t => { t with rowCount := rc }) := by
  induction l with
  | nil => simp
  | cons hd tl ih =>
      obtain ⟨a, b⟩ := hd
      by_cases hk : a = k
      · subst hk
        have hmap : List.map (fun kv : String × TableRec =>
            if kv.1 = a then (kv.1, { kv.2 with rowCount := rc }) else kv) ((a, b) :: tl) =
            (a, { b with rowCount := rc }) :: List.map (fun kv : String × TableRec =>
              if kv.1 = a then (kv.1, { kv.2 with rowCount := rc }) else kv) tl := by
          simp
        rw [hmap]
        simp [List.lookup]
      · have hk' : (k == a) = false := by
          simp [Ne.symm hk]
        have hmap : List.map (fun kv : String × TableRec =>
            if kv.1 = k then (kv.1, { kv.2 with rowCount := rc }) else kv) ((a, b) :: tl) =
            (a, b) :: List.map (fun kv : String × TableRec =>
              if kv.1 = k then (kv.1, { kv.2 with rowCount := rc }) else kv) tl := by
          simp [hk]
        rw [hmap]
        simp [List.lookup, hk', ih]

/-- Reading a previously obtained table record's column array after
`UpdateTableStats` rewrote the shared backing array. -/
theorem readCols_update (st : CatalogState) (tableName : String) (rc : Int)
    (columnStats : List (String × CatColumn)) (t : TableRec)
    (ht : st.tables.lookup tableName = some t) :
    readCols (updateTableStats st tableName rc columnStats).2 t =
      (readCols st t).map (fun c =>
        match columnStats.lookup c.name with
        | some s =>
            { c with
              ndv := s.ndv
              minValue := s.minValue
              maxValue := s.maxValue
              histogram := s.histogram
              nullCount := s.nullCount }
        | none => c) := by
  simp only [updateTableStats, ht, readCols]
  by_cases h : t.colsRef < st.colStore.length
  · rw [List.getD_eq_getElem?_getD, List.getElem?_set_eq_of_lt _ h]
    rfl
  · have hle : st.colStore.length ≤ t.colsRef := Nat.le_of_not_lt h
    rw [List.set_eq_of_length_le hle]
    simp [List.getD_eq_getElem?_getD, List.getElem?_eq_none hle]

/-- Claim C9 (catalog error behaviour), in one statement: `add_table`
succeeds exactly when the name is absent and leaves the state unchanged
on failure; `update_stats` succeeds exactly when the name is present,
and then rewrites the stored record's row count and exactly the
statistics fields of name-matching columns. -/
theorem c9_catalog_errors (st : CatalogState) (schema : TableSchemaV)
    (tableName : String) (rowCount : Int)
    (columnStats : List (String × CatColumn)) :
    ((addTable st schema).1 = .ok () ↔ st.tables.lookup schema.name = none) ∧
    ((addTable st schema).1 ≠ .ok () → (addTable st schema).2 = st) ∧
    ((updateTableStats st tableName rowCount columnStats).1 = .ok () ↔
      (st.tables.lookup tableName).isSome) ∧
    (∀ t, st.tables.lookup tableName = some t →
      (updateTableStats st tableName rowCount columnStats).2.tables.lookup tableName =
        some { t with rowCount := rowCount } ∧
      readCols (updateTableStats st tableName rowCount columnStats).2 t =
        (readCols st t).map (fun c =>
          match columnStats.lookup c.name with
          | some s =>
              { c with
                ndv := s.ndv
                minValue := s.minValue
                maxValue := s.maxValue
                histogram := s.histogram
                nullCount := s.nullCount }
          | none => c)) := by
  refine ⟨?_, ?_, ?_, ?_⟩
  · cases h : st.tables.lookup schema.name <;> simp [addTable, h]
  · cases h : st.tables.lookup schema.name <;> simp [addTable, h]
  · cases h : st.tables.lookup tableName <;> simp [updateTableStats, h]
  · intro t ht
    constructor
    · simp only [updateTableStats, ht]
      rw [lookup_map_rowCount, ht]
      rfl
    · exact readCols_update st tableName rowCount columnStats t ht

/-- Witness for C9 at a one-table catalog: updating `t` with row count
100 and new stats for its column `c` succeeds and rewrites exactly the
stored record. -/
theorem c9_catalog_errors_witness :
    (updateTableStats
        ⟨[("t", ⟨"t", 0, 50, [], []⟩)],
         [[⟨"c", "int", false, some 5, none, none, [], none⟩]]⟩
        "t" 100 [("c", ⟨"c", "int", false, some 7, none, none, [], none⟩)]).2.tables.lookup
        "t" = some ⟨"t", 0, 100, [], []⟩ ∧
    readCols
        (updateTableStats
          ⟨[("t", ⟨"t", 0, 50, [], []⟩)],
           [[⟨"c", "int", false, some 5, none, none, [], none⟩]]⟩
          "t" 100 [("c", ⟨"c", "int", false, some 7, none, none, [], none⟩)]).2
        ⟨"t", 0, 50, [], []⟩ =
      [⟨"c", "int", false, some 7, none, none, [], none⟩] := by
  have h := c9_catalog_errors
    ⟨[("t", ⟨"t", 0, 50, [], []⟩)],
     [[⟨"c", "int", false, some 5, none, none, [], none⟩]]⟩
    ⟨"t", [], 7, [], []⟩ "t" 100
    [("c", ⟨"c", "int", false, some 7, none, none, [], none⟩)]
  have h4 := h.2.2.2 ⟨"t", 0, 50, [], []⟩ rfl
  exact ⟨h4.1, h4.2⟩

/-- Claim C5's failure, evaluated: `get_table` returns a shallow struct
copy whose column slice shares the stored backing array, so a later
`update_stats` changes the NDV read through the previously returned
snapshot from 5 to 7 (the scalar `row_count` of the snapshot is
unaffected). -/
theorem c5_shallow_snapshot_evaluation :
    let col5 : CatColumn := ⟨"c", "int", false, some 5, none, none, [], none⟩
    let stats7 : CatColumn := ⟨"c", "int", false, some 7, none, none, [], none⟩
    let st1 := (addTable CatalogState.empty ⟨"t", [col5], 50, [], []⟩).2
    let snap : TableRec := ⟨"t", 0, 50, [], []⟩
    let afterUpdate := updateTableStats st1 "t" 100 [("c", stats7)]
    getTable st1 "t" = .ok snap ∧
    afterUpdate.1 = .ok () ∧
    (readCols st1 snap).map CatColumn.ndv = [some 5] ∧
    (readCols afterUpdate.2 snap).map CatColumn.ndv = [some 7] ∧
    snap.rowCount = 50 := by
  exact ⟨rfl, rfl, rfl, rfl, rfl⟩

/-! ## Clone and plan signature (claim C8) -/

mutual
/-- Cloning preserves the plan signature. -/
theorem sig_clone (p : Plan) (n : Nat) : (p.clone n).1.sig = p.sig := by
  match p with
  | .node d cs =>
      simp only [Plan.clone, Plan.sig]
      rw [sigList_cloneList cs (n + 1)]
/-- Cloning preserves child signatures. -/
theorem sigList_cloneList (l : PlanList) (n : Nat) :
    (PlanList.cloneList l n).1.sigList = l.sigList := by
  match l with
  | .nil => rfl
  | .cons h t =>
      simp only [PlanList.cloneList, PlanList.sigList]
      rw [sig_clone h n, sigList_cloneList t (h.clone n).2]
end

mutual
/-- Every id of a clone lies strictly above the incoming counter and at
most at the outgoing counter, and the counter never decreases. -/
theorem ids_clone_bounds (p : Plan) (n : Nat) :
    n ≤ (p.clone n).2 ∧ ∀ i ∈ (p.clone n).1.ids, n < i ∧ i ≤ (p.clone n).2 := by
  match p with
  | .node d cs =>
      have hl := idsList_cloneList_bounds cs (n + 1)
      simp only [Plan.clone, Plan.ids, List.mem_cons]
      refine ⟨by omega, ?_⟩
      rintro i (rfl | hi)
      · exact ⟨Nat.lt_succ_self n, by omega⟩
      · have := hl.2 i hi
        omega
/-- List version of `ids_clone_bounds`. -/
theorem idsList_cloneList_bounds (l : PlanList) (n : Nat) :
    n ≤ (PlanList.cloneList l n).2 ∧
      ∀ i ∈ (PlanList.cloneList l n).1.idsList,
        n < i ∧ i ≤ (PlanList.cloneList l n).2 := by
  match l with
  | .nil => simp [PlanList.cloneList, PlanList.idsList]
  | .cons h t =>
      have hh := ids_clone_bounds h n
      have ht := idsList_cloneList_bounds t (h.clone n).2
      simp only [PlanList.cloneList, PlanList.idsList, List.mem_append]
      refine ⟨by omega, ?_⟩
      rintro i (hi | hi)
      · have := hh.2 i hi
        omega
      · have := ht.2 i hi
        omega
end

/-- Claim C8: under the global-counter invariant (every id already in
the tree was minted at or below the current counter value `n`), a clone
has the same plan signature as the original and shares none of its node
ids. -/
theorem c8_clone_signature_fresh_ids (p : Plan) (n : Nat)
    (h : ∀ i ∈ p.ids, i ≤ n) :
    (p.clone n).1.sig = p.sig ∧ ∀ i ∈ (p.clone n).1.ids, i ∉ p.ids := by
  refine ⟨sig_clone p n, ?_⟩
  intro i hi hmem
  have hb := (ids_clone_bounds p n).2 i hi
  have := h i hmem
  omega

/-- Witness for C8: a two-scan inner join (ids 1, 2, 3) cloned at
counter 3. -/
theorem c8_clone_signature_fresh_ids_witness :
    let p := Plan.node { zeroData with id := 1, nodeType := "join", joinType := "inner" }
      (.cons (Plan.node { zeroData with id := 2, nodeType := "scan", tableName := "a" } .nil)
        (.cons (Plan.node { zeroData with id := 3, nodeType := "scan", tableName := "b" } .nil)
          .nil))
    (p.clone 3).1.sig = p.sig ∧ ∀ i ∈ (p.clone 3).1.ids, i ∉ p.ids := by
  exact c8_clone_signature_fresh_ids _ 3 (by decide)

/-! ## Totality of the cardinality estimator (claim C10) -/

/-- On a well-formed plan (I1), `EstimateCardinality` never takes the
`Children[0]` panic path. -/
theorem card_total (st : CatalogState) : (p : Plan) → p.wfB = true → (card st p).isSome
  | .node d .nil, h => by
      rw [Plan.wfB, Bool.and_eq_true] at h
      obtain ⟨harity, _⟩ := h
      by_cases h1 : d.nodeType = "scan"
      · simp [card_scan_eq st d .nil h1]
      by_cases h2 : d.nodeType = "filter"
      · simp [arityOk, h1, h2, PlanList.length] at harity
      by_cases h3 : d.nodeType = "project"
      · simp [arityOk, h1, h2, h3, PlanList.length] at harity
      by_cases h4 : d.nodeType = "join"
      · simp [arityOk, h1, h2, h3, h4, PlanList.length] at harity
      by_cases h5 : d.nodeType = "aggregate"
      · simp [arityOk, h1, h2, h3, h4, h5, PlanList.length] at harity
      by_cases h6 : d.nodeType = "sort"
      · simp [arityOk, h1, h2, h3, h4, h5, h6, PlanList.length] at harity
      by_cases h7 : d.nodeType = "limit"
      · simp [arityOk, h1, h2, h3, h4, h5, h6, h7, PlanList.length] at harity
      · simp [card_default_eq st d .nil h1 h2 h3 h4 h5 h6 h7]
  | .node d (.cons c0 .nil), h => by
      rw [Plan.wfB, Bool.and_eq_true] at h
      obtain ⟨harity, hkids⟩ := h
      rw [PlanList.wfList, Bool.and_eq_true] at hkids
      have hc0 := card_total st c0 hkids.1
      obtain ⟨v, hv⟩ := Option.isSome_iff_exists.mp hc0
      by_cases h1 : d.nodeType = "scan"
      · simp [card_scan_eq st d _ h1]
      by_cases h2 : d.nodeType = "filter"
      · simp [card_filter_eq st d c0 .nil h2, hv]
      by_cases h3 : d.nodeType = "project"
      · rw [card_project_eq st d c0 .nil h3, hv]
        rfl
      by_cases h4 : d.nodeType = "join"
      · simp [arityOk, h1, h2, h3, h4, PlanList.length] at harity
      by_cases h5 : d.nodeType = "aggregate"
      · rw [card_aggregate_eq st d c0 .nil h5, hv]
        by_cases hg : d.groupBy.length = 0 <;> simp [hg]
      by_cases h6 : d.nodeType = "sort"
      · rw [card_sort_eq st d c0 .nil h6, hv]
        rfl
      by_cases h7 : d.nodeType = "limit"
      · cases hk : d.limitCount with
        | some k => simp [card_limit_some_eq st d c0 .nil k h7 hk, hv]
        | none =>
            rw [card_limit_none_eq st d c0 .nil h7 hk, hv]
            rfl
      · simp [card_default_eq st d _ h1 h2 h3 h4 h5 h6 h7]
  | .node d (.cons c0 (.cons c1 t2)), h => by
      rw [Plan.wfB, Bool.and_eq_true] at h
      obtain ⟨harity, hkids⟩ := h
      rw [PlanList.wfList, Bool.and_eq_true] at hkids
      have hrest := hkids.2
      rw [PlanList.wfList, Bool.and_eq_true] at hrest
      have hc0 := card_total st c0 hkids.1
      have hc1 := card_total st c1 hrest.1
      obtain ⟨v0, hv0⟩ := Option.isSome_iff_exists.mp hc0
      obtain ⟨v1, hv1⟩ := Option.isSome_iff_exists.mp hc1
      by_cases h1 : d.nodeType = "scan"
      · simp [card_scan_eq st d _ h1]
      by_cases h2 : d.nodeType = "filter"
      · simp [card_filter_eq st d c0 _ h2, hv0]
      by_cases h3 : d.nodeType = "project"
      · rw [card_project_eq st d c0 _ h3, hv0]
        rfl
      by_cases h4 : d.nodeType = "join"
      · simp [card_join_eq st d c0 c1 t2 h4, hv0, hv1]
      by_cases h5 : d.nodeType = "aggregate"
      · rw [card_aggregate_eq st d c0 _ h5, hv0]
        by_cases hg : d.groupBy.length = 0 <;> simp [hg]
      by_cases h6 : d.nodeType = "sort"
      · rw [card_sort_eq st d c0 _ h6, hv0]
        rfl
      by_cases h7 : d.nodeType = "limit"
      · cases hk : d.limitCount with
        | some k => simp [card_limit_some_eq st d c0 _ k h7 hk, hv0]
        | none =>
            rw [card_limit_none_eq st d c0 _ h7 hk, hv0]
            rfl
      · simp [card_default_eq st d _ h1 h2 h3 h4 h5 h6 h7]
  termination_by p _ => p.psize
  decreasing_by
    all_goals simp [Plan.psize, PlanList.plsize] <;> omega

/-- Claim C10: on every I1-well-formed plan `EstimateCardinality` is
total; the childless branches of every variant return a value except a
Limit node carrying a count, whose branch reads `Children[0]` before
any length check — that node alone turns an empty child list into a
panic, so I1's one-child precondition on Limit is exactly what totality
requires. -/
theorem c10_card_totality (st : CatalogState) :
    (∀ p : Plan, p.wfB = true → (card st p).isSome) ∧
    (∀ (d : NodeData) (k : Int), d.nodeType = "limit" → d.limitCount = some k →
      card st (.node d .nil) = none) ∧
    (∀ d : NodeData, ¬(d.nodeType = "limit" ∧ d.limitCount.isSome) →
      (card st (.node d .nil)).isSome) := by
  refine ⟨fun p => card_total st p, ?_, ?_⟩
  · intro d k h hk
    exact card_limit_some_nil_eq st d k h hk
  · intro d hnot
    by_cases h1 : d.nodeType = "scan"
    · simp [card_scan_eq st d .nil h1]
    by_cases h2 : d.nodeType = "filter"
    · simp [card_filter_nil_eq st d h2]
    by_cases h3 : d.nodeType = "project"
    · simp [card_project_nil_eq st d h3]
    by_cases h4 : d.nodeType = "join"
    · simp [card_join_short_eq st d .nil h4 (by simp [PlanList.length])]
    by_cases h5 : d.nodeType = "aggregate"
    · simp [card_aggregate_nil_eq st d h5]
    by_cases h6 : d.nodeType = "sort"
    · simp [card_sort_nil_eq st d h6]
    by_cases h7 : d.nodeType = "limit"
    · cases hk : d.limitCount with
      | some k => exact absurd ⟨h7, by simp [hk]⟩ hnot
      | none => simp [card_limit_none_nil_eq st d h7 hk]
    · simp [card_default_eq st d .nil h1 h2 h3 h4 h5 h6 h7]

/-- Witness for C10: a well-formed Limit-over-Scan plan has a defined
cardinality; the same Limit node with its child list emptied panics;
a childless Filter node does not. -/
theorem c10_card_totality_witness :
    (card CatalogState.empty
      (Plan.node { zeroData with nodeType := "limit", limitCount := some 10 }
        (.cons (mkScanNode "t" "") .nil))).isSome ∧
    card CatalogState.empty
      (Plan.node { zeroData with nodeType := "limit", limitCount := some 10 } .nil) =
        none ∧
    (card CatalogState.empty
      (Plan.node { zeroData with nodeType := "filter" } .nil)).isSome := by
  have h := c10_card_totality CatalogState.empty
  refine ⟨h.1 _ (by decide), h.2.1 _ 10 rfl rfl, h.2.2 _ (by simp)⟩

/-! ## Claims C2 and C4 on the cardinality estimator -/

/-- Evaluate `goTrunc` at a non-negative integer value. -/
theorem goTrunc_eval (q : ℚ) (n : Int) (hq : q = (n : ℚ)) (hn : 0 ≤ n) :
    goTrunc q = n := by
  subst hq
  unfold goTrunc
  rw [if_neg (by exact_mod_cast not_lt.mpr (by exact_mod_cast hn))]
  exact Int.floor_intCast n

/-- Claim C2's failure, evaluated: for a `LIKE` predicate over a
1000-row table the code estimates 200 rows (selectivity 0.2), while the
claim's table (`LIKE` ↦ 0.1) predicts 100. -/
theorem c2_like_counterexample :
    card ⟨[("t", ⟨"t", 0, 1000, [], []⟩)], [[]]⟩
      (mkFilterNode (mkScanNode "t" "")
        (some ⟨some (.mk "binary_op" (.str "LIKE") none none [] "")⟩)) = some 200 ∧
    goTrunc ((1000 : ℚ) * (1/10)) = 100 ∧ (200 : Int) ≠ 100 := by
  refine ⟨?_, goTrunc_eval _ 100 (by norm_num) (by norm_num), by decide⟩
  rw [show mkFilterNode (mkScanNode "t" "")
        (some ⟨some (.mk "binary_op" (.str "LIKE") none none [] "")⟩) =
      Plan.node { zeroData with
        nodeType := "filter"
        predicate := some ⟨some (.mk "binary_op" (.str "LIKE") none none [] "")⟩ }
        (.cons (mkScanNode "t" "") .nil) from rfl]
  rw [card_filter_eq _ _ _ _ rfl]
  rw [show card ⟨[("t", ⟨"t", 0, 1000, [], []⟩)], [[]]⟩ (mkScanNode "t" "") =
      some 1000 from rfl]
  rw [show estimateSelectivity (some ⟨some (.mk "binary_op" (.str "LIKE")
      none none [] "")⟩) = 1/5 from rfl]
  rw [Option.some_bind]
  rw [goTrunc_eval _ 200 (by norm_num) (by norm_num)]

/-- The amended claim C2: the filter cardinality is the child's
cardinality scaled (with truncation toward zero) by a selectivity read
off the predicate's top operator alone — the catalog is never
consulted — with the table `=` 0.1, the comparisons 0.33, `LIKE` 0.2,
`IN` 0.3, `IS NULL` 0.05, `IS NOT NULL` 0.95, anything else 0.5. -/
theorem c2_amended_filter_card (st : CatalogState) (d : NodeData) (c0 : Plan)
    (rest : PlanList) (n : Int) (typ op : String) (le re : Option Expr)
    (args : List Expr) (dt : String)
    (h : d.nodeType = "filter") (hc : card st c0 = some n)
    (hp : d.predicate = some ⟨some (.mk typ (.str op) le re args dt)⟩) :
    card st (.node d (.cons c0 rest)) =
      some (goTrunc ((n : ℚ) *
        (if op = "=" then 1/10
         else if op = "<" ∨ op = ">" ∨ op = "<=" ∨ op = ">=" then 33/100
         else if op = "LIKE" then 1/5
         else if op = "IN" then 3/10
         else if op = "IS NULL" then 1/20
         else if op = "IS NOT NULL" then 19/20
         else 1/2))) := by
  have hsel : estimateSelectivity d.predicate =
      (if op = "=" then (1 : ℚ)/10
       else if op = "<" ∨ op = ">" ∨ op = "<=" ∨ op = ">=" then 33/100
       else if op = "LIKE" then 1/5
       else if op = "IN" then 3/10
       else if op = "IS NULL" then 1/20
       else if op = "IS NOT NULL" then 19/20
       else 1/2) := by
    rw [hp]
    simp [estimateSelectivity, Expr.value]
  rw [card_filter_eq st d c0 rest h, hc, Option.some_bind, hsel]

/-- Witness for the amended C2 at a concrete `<` filter over an
unknown table (default cardinality 1000). -/
theorem c2_amended_filter_card_witness :
    card CatalogState.empty
      (Plan.node { zeroData with
        nodeType := "filter"
        predicate := some ⟨some (.mk "binary_op" (.str "<") none none [] "")⟩ }
        (.cons (mkScanNode "u" "") .nil)) = some 330 := by
  have h := c2_amended_filter_card CatalogState.empty
    { zeroData with
      nodeType := "filter"
      predicate := some ⟨some (.mk "binary_op" (.str "<") none none [] "")⟩ }
    (mkScanNode "u" "") .nil 1000 "binary_op" "<" none none [] ""
    rfl rfl rfl
  rw [h]
  simp only [String.reduceEq, if_false, false_or, or_false, if_true, reduceIte]
  rw [goTrunc_eval _ 330 (by norm_num) (by norm_num)]

/-- Claim C4: the Scan, Join and Limit rows of the cardinality table.
Scan yields the catalog row count (1000 when the lookup fails); Join
yields `⌊0.1·L·R⌋` / `L·R` / `L` / `R` / `L+R` for inner / cross /
left / right / full; Limit yields `min(child, k)` with a count and the
child cardinality without one. -/
theorem c4_cardinality_table (st : CatalogState) :
    (∀ (d : NodeData) (cs : PlanList) (t : TableRec), d.nodeType = "scan" →
      getTable st d.tableName = .ok t → card st (.node d cs) = some t.rowCount) ∧
    (∀ (d : NodeData) (cs : PlanList) (e : String), d.nodeType = "scan" →
      getTable st d.tableName = .error e → card st (.node d cs) = some 1000) ∧
    (∀ (d : NodeData) (a b : Plan) (l r : Int), d.nodeType = "join" →
      card st a = some l → card st b = some r →
      (d.joinType = "inner" →
        card st (.node d (.cons a (.cons b .nil))) =
          some (goTrunc ((l * r : Int) * (1/10 : ℚ)))) ∧
      (d.joinType = "cross" →
        card st (.node d (.cons a (.cons b .nil))) = some (l * r)) ∧
      (d.joinType = "left" →
        card st (.node d (.cons a (.cons b .nil))) = some l) ∧
      (d.joinType = "right" →
        card st (.node d (.cons a (.cons b .nil))) = some r) ∧
      (d.joinType = "full" →
        card st (.node d (.cons a (.cons b .nil))) = some (l + r))) ∧
    (∀ (d : NodeData) (c0 : Plan) (n k : Int), d.nodeType = "limit" →
      card st c0 = some n →
      (d.limitCount = some k →
        card st (.node d (.cons c0 .nil)) = some (min n k)) ∧
      (d.limitCount = none →
        card st (.node d (.cons c0 .nil)) = some n)) := by
  refine ⟨?_, ?_, ?_, ?_⟩
  · intro d cs t h ht
    rw [card_scan_eq st d cs h]
    simp [rowCountOrDefault, ht]
  · intro d cs e h he
    rw [card_scan_eq st d cs h]
    simp [rowCountOrDefault, he]
  · intro d a b l r h ha hb
    refine ⟨?_, ?_, ?_, ?_, ?_⟩ <;> intro hjt <;>
      simp [card_join_eq st d a b .nil h, ha, hb, hjt]
  · intro d c0 n k h hc
    constructor
    · intro hk
      rw [card_limit_some_eq st d c0 .nil k h hk, hc]
      have : (if n < k then n else k) = min n k := by omega
      simp [this]
    · intro hk
      exact card_limit_none_eq st d c0 .nil h hk ▸ hc

/-- Witness for C4: a left join of a known 50-row table with an unknown
one yields 50; a Limit 7 over the unknown table yields 7. -/
theorem c4_cardinality_table_witness :
    card (addTable CatalogState.empty ⟨"t", [], 50, [], []⟩).2
      (Plan.node { zeroData with nodeType := "join", joinType := "left" }
        (.cons (mkScanNode "t" "") (.cons (mkScanNode "u" "") .nil))) = some 50 ∧
    card (addTable CatalogState.empty ⟨"t", [], 50, [], []⟩).2
      (Plan.node { zeroData with nodeType := "limit", limitCount := some 7 }
        (.cons (mkScanNode "u" "") .nil)) = some (min 1000 7) := by
  have h := c4_cardinality_table (addTable CatalogState.empty ⟨"t", [], 50, [], []⟩).2
  constructor
  · exact ((h.2.2.1 _ (mkScanNode "t" "") (mkScanNode "u" "") 50 1000 rfl rfl rfl).2.2.1) rfl
  · exact (h.2.2.2 _ (mkScanNode "u" "") 1000 7 rfl rfl).1 rfl

/-! ## The join-order swap pass (claim C1) -/

set_option maxHeartbeats 1000000 in
/-- `EstimateCost` at a Join node with two (or more) children. -/
theorem cost_join_eq (lg : ℚ → ℚ) (st : CatalogState) (d : NodeData) (a b : Plan)
    (rest : PlanList) (h : d.nodeType = "join") :
    cost lg st (.node d (.cons a (.cons b rest))) =
      (cost lg st a).bind (fun leftCost =>
        (cost lg st b).bind (fun rightCost =>
          (card st (.node d (.cons a (.cons b rest)))).bind (fun outputCardinality =>
            some ⟨leftCost.totalCost + rightCost.totalCost +
                ((leftCost.cardinality * rightCost.cardinality : Int) : ℚ) *
                  (1/100) * (3/2),
              leftCost.cpuCost + rightCost.cpuCost +
                ((leftCost.cardinality * rightCost.cardinality : Int) : ℚ) *
                  (1/100) * (3/2),
              leftCost.ioCost + rightCost.ioCost,
              leftCost.networkCost + rightCost.networkCost,
              leftCost.memoryCost + rightCost.memoryCost, outputCardinality⟩))) := by
  rw [cost.eq_def]
  simp [h]

/-- The total estimated cost of a Join is symmetric in its two
children: the candidate `NewJoinNode(right, left, …)` built by
`optimizeJoinOrder` always costs exactly the same total. -/
theorem cost_join_swap_total (lg : ℚ → ℚ) (st : CatalogState) (d : NodeData)
    (a b : Plan) (e : CostEstimate) (h : d.nodeType = "join")
    (hc : cost lg st (.node d (.cons a (.cons b .nil))) = some e) :
    ∃ e', cost lg st (mkJoinNode b a d.joinType d.joinCondition) = some e' ∧
      e'.totalCost = e.totalCost := by
  rw [cost_join_eq lg st d a b .nil h] at hc
  cases hl : cost lg st a with
  | none => rw [hl] at hc; simp at hc
  | some l =>
  cases hr : cost lg st b with
  | none => rw [hl, hr] at hc; simp at hc
  | some r =>
  cases hoc : card st (.node d (.cons a (.cons b .nil))) with
  | none => rw [hl, hr, hoc] at hc; simp at hc
  | some oc =>
  rw [hl, hr, hoc] at hc
  simp only [Option.some_bind, Option.some_inj] at hc
  rw [card_join_eq st d a b .nil h] at hoc
  cases hla : card st a with
  | none => rw [hla] at hoc; simp at hoc
  | some la =>
  cases hlb : card st b with
  | none => rw [hla, hlb] at hoc; simp at hoc
  | some lb =>
  have hswap : mkJoinNode b a d.joinType d.joinCondition =
      Plan.node (joinData d.joinType d.joinCondition) (.cons b (.cons a .nil)) := rfl
  have hjt : (joinData d.joinType d.joinCondition).nodeType = "join" := rfl
  have hjt2 : (joinData d.joinType d.joinCondition).joinType = d.joinType := rfl
  have hoc' : (card st (Plan.node (joinData d.joinType d.joinCondition)
      (.cons b (.cons a .nil)))).isSome := by
    rw [card_join_eq st _ b a .nil hjt, hlb, hla]
    simp
  obtain ⟨oc', hoc'⟩ := Option.isSome_iff_exists.mp hoc'
  refine ⟨⟨r.totalCost + l.totalCost +
      ((r.cardinality * l.cardinality : Int) : ℚ) * (1/100) * (3/2),
    r.cpuCost + l.cpuCost +
      ((r.cardinality * l.cardinality : Int) : ℚ) * (1/100) * (3/2),
    r.ioCost + l.ioCost, r.networkCost + l.networkCost,
    r.memoryCost + l.memoryCost, oc'⟩, ?_, ?_⟩
  · rw [hswap, cost_join_eq lg st _ b a .nil hjt, hr, hl, hoc']
    simp
  · rw [← hc]
    push_cast
    ring

mutual
/-- `optimizeJoinOrder` never restructures the plan: the swap condition
compares the total cost of the node with the total cost of the
children-swapped candidate, and those are always equal. -/
theorem optJoinOrder_id (lg : ℚ → ℚ) (st : CatalogState) :
    (p : Plan) → ∀ q, optJoinOrder lg st p = some q → q = p
  | .node d (.cons a (.cons b .nil)), q => by
      intro hq
      simp only [optJoinOrder] at hq
      by_cases hj : d.nodeType = "join"
      · rw [if_pos hj] at hq
        cases hcur : cost lg st (.node d (.cons a (.cons b .nil))) with
        | none => rw [hcur] at hq; simp at hq
        | some currentCost =>
            rw [hcur] at hq
            obtain ⟨sw, hsw, hswtot⟩ := cost_join_swap_total lg st d a b currentCost hj hcur
            rw [hsw] at hq
            dsimp only at hq
            rw [if_neg (by rw [hswtot]; exact lt_irrefl _)] at hq
            cases hoa : optJoinOrder lg st a with
            | none => rw [hoa] at hq; simp at hq
            | some a' =>
                cases hob : optJoinOrder lg st b with
                | none => rw [hoa, hob] at hq; simp at hq
                | some b' =>
                    rw [hoa, hob] at hq
                    dsimp only at hq
                    simp only [Option.some_inj] at hq
                    rw [← hq, optJoinOrder_id lg st a a' hoa,
                      optJoinOrder_id lg st b b' hob]
      · rw [if_neg hj] at hq
        cases hcs : optJoinList lg st (.cons a (.cons b .nil)) with
        | none => rw [hcs] at hq; simp at hq
        | some cs' =>
            rw [hcs] at hq
            dsimp only at hq
            simp only [Option.some_inj] at hq
            rw [← hq, optJoinList_id lg st _ cs' hcs]
  | .node d .nil, q => by
      intro hq
      simp only [optJoinOrder] at hq
      cases hcs : optJoinList lg st .nil with
      | none => rw [hcs] at hq; simp at hq
      | some cs' =>
          rw [hcs] at hq
          dsimp only at hq
          simp only [Option.some_inj] at hq
          rw [← hq, optJoinList_id lg st _ cs' hcs]
  | .node d (.cons a .nil), q => by
      intro hq
      simp only [optJoinOrder] at hq
      cases hcs : optJoinList lg st (.cons a .nil) with
      | none => rw [hcs] at hq; simp at hq
      | some cs' =>
          rw [hcs] at hq
          dsimp only at hq
          simp only [Option.some_inj] at hq
          rw [← hq, optJoinList_id lg st _ cs' hcs]
  | .node d (.cons a (.cons b (.cons c t))), q => by
      intro hq
      simp only [optJoinOrder] at hq
      cases hcs : optJoinList lg st (.cons a (.cons b (.cons c t))) with
      | none => rw [hcs] at hq; simp at hq
      | some cs' =>
          rw [hcs] at hq
          dsimp only at hq
          simp only [Option.some_inj] at hq
          rw [← hq, optJoinList_id lg st _ cs' hcs]
  termination_by p => p.psize
  decreasing_by
    all_goals simp [Plan.psize, PlanList.plsize] <;> omega
/-- The child loop of `optimizeJoinOrder` never restructures. -/
theorem optJoinList_id (lg : ℚ → ℚ) (st : CatalogState) :
    (l : PlanList) → ∀ l', optJoinList lg st l = some l' → l' = l
  | .nil, l' => by
      intro hl
      simp only [optJoinList] at hl
      simp only [Option.some_inj] at hl
      exact hl.symm
  | .cons h t, l' => by
      intro hl
      simp only [optJoinList] at hl
      cases hh : optJoinOrder lg st h with
      | none => rw [hh] at hl; simp at hl
      | some h' =>
          cases ht : optJoinList lg st t with
          | none => rw [hh, ht] at hl; simp at hl
          | some t' =>
              rw [hh, ht] at hl
              dsimp only at hl
              simp only [Option.some_inj] at hl
              rw [← hl, optJoinOrder_id lg st h h' hh, optJoinList_id lg st t t' ht]
  termination_by l => l.plsize
  decreasing_by
    all_goals simp [Plan.psize, PlanList.plsize] <;> omega
end

/-- Claim C1: the join-order swap pass swaps exactly when the swapped
candidate has strictly lower total cost; that never happens (the join
cost is symmetric in the children), so the pass returns the plan
unchanged — in particular children of a left or right join are never
swapped without inverting the join type, vacuously satisfying I4. -/
theorem c1_join_swap_pass (lg : ℚ → ℚ) (st : CatalogState) :
    (∀ p q, optJoinOrder lg st p = some q → q = p) ∧
    (∀ (d : NodeData) (a b : Plan) (e e' : CostEstimate), d.nodeType = "join" →
      cost lg st (.node d (.cons a (.cons b .nil))) = some e →
      cost lg st (mkJoinNode b a d.joinType d.joinCondition) = some e' →
      ¬ e'.totalCost < e.totalCost) := by
  refine ⟨fun p => optJoinOrder_id lg st p, ?_⟩
  intro d a b e e' h hc hc'
  obtain ⟨e'', hc'', htot⟩ := cost_join_swap_total lg st d a b e h hc
  rw [hc'] at hc''
  simp only [Option.some_inj] at hc''
  rw [hc'', htot]
  exact lt_irrefl _

/-- Witness for C1: for the inner join of two unknown-table scans both
orientations cost 17000 in total, so the strict-decrease swap condition
fails. -/
theorem c1_join_swap_pass_witness :
    ¬ (⟨17000, 15400, 1600, 0, 0, 100000⟩ : CostEstimate).totalCost <
      (⟨17000, 15400, 1600, 0, 0, 100000⟩ : CostEstimate).totalCost := by
  have hsA : cost (fun _ => 0) CatalogState.empty (mkScanNode "a" "") =
      some ⟨1000, 200, 800, 0, 0, 1000⟩ := rfl
  have hsB : cost (fun _ => 0) CatalogState.empty (mkScanNode "b" "") =
      some ⟨1000, 200, 800, 0, 0, 1000⟩ := rfl
  have hcA : card CatalogState.empty (mkScanNode "a" "") = some 1000 := rfl
  have hcB : card CatalogState.empty (mkScanNode "b" "") = some 1000 := rfl
  have hcardAB : card CatalogState.empty (Plan.node (joinData "inner" none)
      (.cons (mkScanNode "a" "") (.cons (mkScanNode "b" "") .nil))) =
      some 100000 := by
    rw [card_join_eq _ _ _ _ _ rfl, hcA, hcB]
    simp only [Option.some_bind]
    rw [show (joinData "inner" none).joinType = "inner" from rfl]
    simp only [String.reduceEq, reduceIte]
    rw [goTrunc_eval _ 100000 (by push_cast; norm_num) (by norm_num)]
  have hcardBA : card CatalogState.empty (Plan.node (joinData "inner" none)
      (.cons (mkScanNode "b" "") (.cons (mkScanNode "a" "") .nil))) =
      some 100000 := by
    rw [card_join_eq _ _ _ _ _ rfl, hcA, hcB]
    simp only [Option.some_bind]
    rw [show (joinData "inner" none).joinType = "inner" from rfl]
    simp only [String.reduceEq, reduceIte]
    rw [goTrunc_eval _ 100000 (by push_cast; norm_num) (by norm_num)]
  have hAB : cost (fun _ => 0) CatalogState.empty
      (Plan.node (joinData "inner" none)
        (.cons (mkScanNode "a" "") (.cons (mkScanNode "b" "") .nil))) =
      some ⟨17000, 15400, 1600, 0, 0, 100000⟩ := by
    rw [cost_join_eq _ _ _ _ _ _ rfl, hsA, hsB, hcardAB]
    simp only [Option.some_bind, Option.some_inj, CostEstimate.mk.injEq]
    norm_num
  have hBA : cost (fun _ => 0) CatalogState.empty
      (Plan.node (joinData "inner" none)
        (.cons (mkScanNode "b" "") (.cons (mkScanNode "a" "") .nil))) =
      some ⟨17000, 15400, 1600, 0, 0, 100000⟩ := by
    rw [cost_join_eq _ _ _ _ _ _ rfl, hsB, hsA, hcardBA]
    simp only [Option.some_bind, Option.some_inj, CostEstimate.mk.injEq]
    norm_num
  exact (c1_join_swap_pass (fun _ => 0) CatalogState.empty).2 (joinData "inner" none)
    (mkScanNode "a" "") (mkScanNode "b" "") _ _ rfl hAB hBA

/-! ## The execution simulator on Scan-only plans (claim C7) -/

/-- The generic simulator on a single Scan node. -/
theorem simNode_scan_eq (d : NodeData) (m : Metrics) (h : d.nodeType = "scan") :
    simNode (.node d .nil) m = some (simScan d m) := by
  simp [simNode, simList, h]

/-- Claim C7's failure, evaluated: on `Scan(t)` with no estimate
annotation the simulator returns 1000 rows, while the catalog knows `t`
has 2000 rows, so C3's cardinality of the root is 2000. -/
theorem c7_counterexample :
    (simExec (mkScanNode "t" "")).map Metrics.rowsReturned = some 1000 ∧
    card ⟨[("t", ⟨"t", 0, 2000, [], []⟩)], [[]]⟩ (mkScanNode "t" "") = some 2000 ∧
    (1000 : Int) ≠ 2000 := by
  refine ⟨?_, rfl, by decide⟩
  rw [simExec, show mkScanNode "t" "" = Plan.node { zeroData with
    nodeType := "scan"
    tableName := "t" } .nil from rfl, simNode_scan_eq _ _ rfl]
  simp [simScan, Metrics.zero, zeroData]

/-- The amended claim C7: on a Scan-only plan the simulator's
`rows_returned` equals the root's `estimated_rows` annotation
(defaulting to 1000), which coincides with C3's cardinality exactly
when the annotation agrees with C3 — in particular when the annotation
is absent and the table is unknown to the catalog, both default to
1000. -/
theorem c7_amended_scan_only (st : CatalogState) (d : NodeData) (m : Metrics)
    (h : d.nodeType = "scan") (hm : simExec (.node d .nil) = some m) :
    m.rowsReturned = d.estimatedRows.getD 1000 ∧
    ((d.estimatedRows = none ∧ st.tables.lookup d.tableName = none) →
      card st (.node d .nil) = some m.rowsReturned) ∧
    (∀ c : Int, d.estimatedRows = some c → card st (.node d .nil) = some c →
      card st (.node d .nil) = some m.rowsReturned) := by
  rw [simExec, simNode_scan_eq d Metrics.zero h] at hm
  simp only [Option.some_inj] at hm
  have hr : m.rowsReturned = d.estimatedRows.getD 1000 := by
    rw [← hm]
    simp [simScan, Metrics.zero]
  refine ⟨hr, ?_, ?_⟩
  · intro ⟨hest, hlook⟩
    rw [card_scan_eq st d .nil h, hr, hest]
    simp [rowCountOrDefault, getTable, hlook]
  · intro c hest hcard
    rw [hcard, hr, hest]
    rfl

/-- Witness for the amended C7: a scan of a table unknown to the empty
catalog, with no annotation — simulator and cardinality both give
1000. -/
theorem c7_amended_scan_only_witness :
    card CatalogState.empty (mkScanNode "t" "") =
      some (Metrics.rowsReturned ⟨1000, 1000, 10000000, 10, 100000, 0⟩) := by
  have hm : simExec (Plan.node { zeroData with
      nodeType := "scan"
      tableName := "t" } .nil) = some ⟨1000, 1000, 10000000, 10, 100000, 0⟩ := by
    rw [simExec, simNode_scan_eq _ _ rfl]
    simp only [simScan, Metrics.zero, Option.some_inj]
    decide
  have h := c7_amended_scan_only CatalogState.empty
    { zeroData with
      nodeType := "scan"
      tableName := "t" } _ rfl hm
  exact h.2.1 ⟨rfl, rfl⟩

/-! ## Predicate pushdown at a join (claim C3) -/

/-- Claim C3's failure, evaluated: a filter whose predicate `a.x > 5`
references only the left side of the join below it (the spec-side
pushability condition holds) is returned unchanged with `changed =
false` — `canPushFilterToJoinSides` constantly reports neither side
pushable, and even a pushable report would only set the flag without
restructuring.  The claim says such a filter is pushed below the left
input, i.e. the root would become the join. -/
theorem c3_filter_join_not_pushed :
    let pax : Option Pred := some ⟨some (.mk "binary_op" (.str ">")
      (some (.mk "column" (.str "a.x") none none [] ""))
      (some (.mk "literal" (.int 5) none none [] "")) [] "")⟩
    let cplan := Plan.node { zeroData with
      nodeType := "filter"
      predicate := pax }
      (.cons (mkJoinNode (mkScanNode "a" "") (mkScanNode "b" "") "inner" none) .nil)
    ppApply cplan = some (cplan, false) ∧
    specReferencesOnlySide pax (mkScanNode "a" "") = true ∧
    cplan.data.nodeType = "filter" := by
  refine ⟨?_, ?_, rfl⟩
  · simp [ppApply, ppList, canPushFilterToJoinSides, mkJoinNode, mkScanNode,
      joinData, zeroData]
  · simp [specReferencesOnlySide, exprCols, qualOf, Plan.scanQuals,
      PlanList.scanQualsList, mkScanNode, zeroData, Expr.value]

/-! ## Scan-multiset preservation (claim C6) -/

/-- Cloning preserves the number of children. -/
theorem cloneList_length : (l : PlanList) → (n : Nat) →
    (PlanList.cloneList l n).1.length = l.length
  | .nil, _ => rfl
  | .cons h t, n => by
      simp only [PlanList.cloneList, PlanList.length]
      rw [cloneList_length t (h.clone n).2]

mutual
/-- Cloning preserves the scan table names. -/
theorem scans_clone (p : Plan) (n : Nat) : (p.clone n).1.scans = p.scans := by
  match p with
  | .node d cs =>
      simp only [Plan.clone, Plan.scans]
      rw [scansList_cloneList cs (n + 1)]
/-- List version of `scans_clone`. -/
theorem scansList_cloneList (l : PlanList) (n : Nat) :
    (PlanList.cloneList l n).1.scansList = l.scansList := by
  match l with
  | .nil => rfl
  | .cons h t =>
      simp only [PlanList.cloneList, PlanList.scansList]
      rw [scans_clone h n, scansList_cloneList t (h.clone n).2]
end

mutual
/-- Cloning preserves well-formedness. -/
theorem wf_clone (p : Plan) (n : Nat) : (p.clone n).1.wfB = p.wfB := by
  match p with
  | .node d cs =>
      simp only [Plan.clone, Plan.wfB]
      rw [wfList_cloneList cs (n + 1), cloneList_length cs (n + 1)]
/-- List version of `wf_clone`. -/
theorem wfList_cloneList (l : PlanList) (n : Nat) :
    (PlanList.cloneList l n).1.wfList = l.wfList := by
  match l with
  | .nil => rfl
  | .cons h t =>
      simp only [PlanList.cloneList, PlanList.wfList]
      rw [wf_clone h n, wfList_cloneList t (h.clone n).2]
end

/-- A child list of length zero is empty. -/
theorem planList_length_zero (l : PlanList) (h : l.length = 0) : l = .nil := by
  cases l with
  | nil => rfl
  | cons a t => simp [PlanList.length] at h

/-- `ppList` on the empty list. -/
theorem ppList_nil_eq : ppList .nil = some (.nil, false) := by
  simp [ppList]

/-- `ppList` on a cons, as a bind. -/
theorem ppList_cons_eq (h : Plan) (t : PlanList) :
    ppList (.cons h t) =
      (ppApply h).bind (fun rh =>
        (ppList t).map (fun rt =>
          (.cons (if rh.2 then rh.1 else h) rt.1, rh.2 || rt.2))) := by
  cases hh : ppApply h with
  | none => simp [ppList, hh]
  | some rh =>
      cases ht : ppList t with
      | none => simp [ppList, hh, ht]
      | some rt => simp [ppList, hh, ht]

/-- The pushdown rewrite at `Filter(p, Project(π, c :: …))`. -/
theorem ppApply_rewrite_eq (d cd : NodeData) (gc : Plan) (grest : PlanList)
    (hf : d.nodeType = "filter") (hp : cd.nodeType = "project") :
    ppApply (.node d (.cons (.node cd (.cons gc grest)) .nil)) =
      (ppList (.cons (mkFilterNode gc d.predicate) .nil)).map (fun r =>
        (.node (projectData cd.projections) r.1, true || r.2)) := by
  cases hl : ppList (.cons (mkFilterNode gc d.predicate) .nil) with
  | none => simp [ppApply, hf, hp, canPushFilterBelowProject, hl]
  | some r => simp [ppApply, hf, hp, canPushFilterBelowProject, hl]

/-- The pushdown panic at `Filter(p, Project(π))` with a childless
project. -/
theorem ppApply_panic_eq (d cd : NodeData) (hf : d.nodeType = "filter")
    (hp : cd.nodeType = "project") :
    ppApply (.node d (.cons (.node cd .nil) .nil)) = none := by
  simp [ppApply, hf, hp, canPushFilterBelowProject]

/-- The pushdown recursion at a Filter over a non-Project child (the
Join case only consults the constantly-false pushability test). -/
theorem ppApply_single_eq (d cd : NodeData) (ccs : PlanList)
    (hp : cd.nodeType ≠ "project") :
    ppApply (.node d (.cons (.node cd ccs) .nil)) =
      (ppList (.cons (.node cd ccs) .nil)).map (fun r => (.node d r.1, r.2)) := by
  cases ccs with
  | nil =>
      by_cases hf : d.nodeType = "filter" <;>
        by_cases hj : cd.nodeType = "join" <;>
          cases hl : ppList (.cons (.node cd .nil) .nil) <;>
            simp [ppApply, hf, hp, hj, canPushFilterToJoinSides, hl]
  | cons gc grest =>
      by_cases hf : d.nodeType = "filter" <;>
        by_cases hj : cd.nodeType = "join" <;>
          cases hl : ppList (.cons (.node cd (.cons gc grest)) .nil) <;>
            simp [ppApply, hf, hp, hj, canPushFilterToJoinSides, hl]

/-- The pushdown recursion at a non-Filter node with one child. -/
theorem ppApply_nonfilter_eq (d cd : NodeData) (ccs : PlanList)
    (hf : d.nodeType ≠ "filter") :
    ppApply (.node d (.cons (.node cd ccs) .nil)) =
      (ppList (.cons (.node cd ccs) .nil)).map (fun r => (.node d r.1, r.2)) := by
  cases ccs with
  | nil =>
      cases hl : ppList (.cons (.node cd .nil) .nil) <;> simp [ppApply, hf, hl]
  | cons gc grest =>
      cases hl : ppList (.cons (.node cd (.cons gc grest)) .nil) <;>
        simp [ppApply, hf, hl]

/-- The pushdown recursion at a childless node. -/
theorem ppApply_nil_eq (d : NodeData) :
    ppApply (.node d .nil) = some (.node d .nil, false) := by
  simp [ppApply, ppList_nil_eq]

/-- The pushdown recursion at a node with two or more children. -/
theorem ppApply_many_eq (d : NodeData) (c0 c1 : Plan) (t : PlanList) :
    ppApply (.node d (.cons c0 (.cons c1 t))) =
      (ppList (.cons c0 (.cons c1 t))).map (fun r => (.node d r.1, r.2)) := by
  cases hl : ppList (.cons c0 (.cons c1 t)) <;> simp [ppApply, hl]

mutual
/-- `PredicatePushdownRule.applyRecursive` preserves the scan list
(literally, hence as a multiset) and well-formedness of a well-formed
plan. -/
theorem ppApply_preserve : (p : Plan) → ∀ q b, ppApply p = some (q, b) →
    p.wfB = true → q.scans = p.scans ∧ q.wfB = true
  | .node d (.cons (.node cd (.cons gc grest)) .nil), q, b => by
      intro hq hw
      have hws := hw
      simp only [Plan.wfB, PlanList.wfList, PlanList.length,
        Bool.and_eq_true] at hws
      obtain ⟨had, ⟨hac, hwgc, hwgrest⟩, -⟩ := hws
      by_cases hf : d.nodeType = "filter"
      · by_cases hp : cd.nodeType = "project"
        · rw [ppApply_rewrite_eq d cd gc grest hf hp] at hq
          have hgnil : grest = PlanList.nil := by
            rw [hp] at hac
            simp [arityOk] at hac
            exact planList_length_zero grest (by omega)
          cases hl : ppList (.cons (mkFilterNode gc d.predicate) .nil) with
          | none => rw [hl] at hq; simp at hq
          | some r =>
              rw [hl] at hq
              simp only [Option.map_some', Option.some_inj,
                Prod.mk.injEq] at hq
              have hwl : (PlanList.cons (mkFilterNode gc d.predicate)
                  .nil).wfList = true := by
                simp [PlanList.wfList, Plan.wfB, mkFilterNode, arityOk,
                  PlanList.length, hwgc]
              have hpre := ppList_preserve
                (.cons (mkFilterNode gc d.predicate) .nil) r.1 r.2
                (by rw [hl]) hwl
              obtain ⟨hsc, hwf, hlen⟩ := hpre
              subst hgnil
              rw [← hq.1]
              constructor
              · simp only [Plan.scans, PlanList.scansList, projectData,
                  mkFilterNode] at hsc ⊢
                simp only [String.reduceEq, reduceIte, List.nil_append,
                  List.append_nil] at hsc ⊢
                rw [hsc]
                simp [hf, hp]
              · simp only [Plan.wfB, Bool.and_eq_true]
                refine ⟨?_, hwf⟩
                rw [hlen]
                simp [projectData, arityOk, PlanList.length]
        · rw [ppApply_single_eq d cd (.cons gc grest) hp] at hq
          cases hl : ppList (.cons (.node cd (.cons gc grest)) .nil) with
          | none => rw [hl] at hq; simp at hq
          | some r =>
              rw [hl] at hq
              simp only [Option.map_some', Option.some_inj,
                Prod.mk.injEq] at hq
              have hwl : (PlanList.cons (.node cd (.cons gc grest))
                  .nil).wfList = true := by
                simp only [PlanList.wfList, Plan.wfB, PlanList.length,
                  Bool.and_eq_true]
                exact ⟨⟨hac, hwgc, hwgrest⟩, trivial⟩
              have hpre := ppList_preserve
                (.cons (.node cd (.cons gc grest)) .nil) r.1 r.2
                (by rw [hl]) hwl
              obtain ⟨hsc, hwf, hlen⟩ := hpre
              rw [← hq.1]
              constructor
              · simp only [Plan.scans]
                rw [hsc]
              · simp only [Plan.wfB, Bool.and_eq_true]
                refine ⟨?_, hwf⟩
                rw [hlen]
                exact had
      · rw [ppApply_nonfilter_eq d cd (.cons gc grest) hf] at hq
        cases hl : ppList (.cons (.node cd (.cons gc grest)) .nil) with
        | none => rw [hl] at hq; simp at hq
        | some r =>
            rw [hl] at hq
            simp only [Option.map_some', Option.some_inj,
              Prod.mk.injEq] at hq
            have hwl : (PlanList.cons (.node cd (.cons gc grest))
                .nil).wfList = true := by
              simp only [PlanList.wfList, Plan.wfB, PlanList.length,
                Bool.and_eq_true]
              exact ⟨⟨hac, hwgc, hwgrest⟩, trivial⟩
            have hpre := ppList_preserve
              (.cons (.node cd (.cons gc grest)) .nil) r.1 r.2
              (by rw [hl]) hwl
            obtain ⟨hsc, hwf, hlen⟩ := hpre
            rw [← hq.1]
            constructor
            · simp only [Plan.scans]
              rw [hsc]
            · simp only [Plan.wfB, Bool.and_eq_true]
              refine ⟨?_, hwf⟩
              rw [hlen]
              exact had
  | .node d (.cons (.node cd .nil) .nil), q, b => by
      intro hq hw
      have hws := hw
      simp only [Plan.wfB, PlanList.wfList, PlanList.length,
        Bool.and_eq_true] at hws
      obtain ⟨had, ⟨hac, -⟩, -⟩ := hws
      by_cases hf : d.nodeType = "filter"
      · by_cases hp : cd.nodeType = "project"
        · rw [ppApply_panic_eq d cd hf hp] at hq
          exact absurd hq (by simp)
        · rw [ppApply_single_eq d cd .nil hp] at hq
          cases hl : ppList (.cons (.node cd .nil) .nil) with
          | none => rw [hl] at hq; simp at hq
          | some r =>
              rw [hl] at hq
              simp only [Option.map_some', Option.some_inj,
                Prod.mk.injEq] at hq
              have hwl : (PlanList.cons (.node cd .nil) .nil).wfList
                  = true := by
                simp only [PlanList.wfList, Plan.wfB, PlanList.length,
                  Bool.and_eq_true]
                exact ⟨⟨hac, trivial⟩, trivial⟩
              have hpre := ppList_preserve (.cons (.node cd .nil) .nil)
                r.1 r.2 (by rw [hl]) hwl
              obtain ⟨hsc, hwf, hlen⟩ := hpre
              rw [← hq.1]
              refine ⟨by simp only [Plan.scans]; rw [hsc], ?_⟩
              simp only [Plan.wfB, Bool.and_eq_true]
              refine ⟨?_, hwf⟩
              rw [hlen]
              exact had
      · rw [ppApply_nonfilter_eq d cd .nil hf] at hq
        cases hl : ppList (.cons (.node cd .nil) .nil) with
        | none => rw [hl] at hq; simp at hq
        | some r =>
            rw [hl] at hq
            simp only [Option.map_some', Option.some_inj,
              Prod.mk.injEq] at hq
            have hwl : (PlanList.cons (.node cd .nil) .nil).wfList
                = true := by
              simp only [PlanList.wfList, Plan.wfB, PlanList.length,
                Bool.and_eq_true]
              exact ⟨⟨hac, trivial⟩, trivial⟩
            have hpre := ppList_preserve (.cons (.node cd .nil) .nil)
              r.1 r.2 (by rw [hl]) hwl
            obtain ⟨hsc, hwf, hlen⟩ := hpre
            rw [← hq.1]
            refine ⟨by simp only [Plan.scans]; rw [hsc], ?_⟩
            simp only [Plan.wfB, Bool.and_eq_true]
            refine ⟨?_, hwf⟩
            rw [hlen]
            exact had
  | .node d .nil, q, b => by
      intro hq hw
      rw [ppApply_nil_eq d] at hq
      simp only [Option.some_inj, Prod.mk.injEq] at hq
      rw [← hq.1]
      exact ⟨rfl, hw⟩
  | .node d (.cons c0 (.cons c1 t)), q, b => by
      intro hq hw
      have hws := hw
      simp only [Plan.wfB, Bool.and_eq_true] at hws
      obtain ⟨had, hwcs⟩ := hws
      rw [ppApply_many_eq d c0 c1 t] at hq
      cases hl : ppList (.cons c0 (.cons c1 t)) with
      | none => rw [hl] at hq; simp at hq
      | some r =>
          rw [hl] at hq
          simp only [Option.map_some', Option.some_inj,
            Prod.mk.injEq] at hq
          have hpre := ppList_preserve (.cons c0 (.cons c1 t)) r.1 r.2
            (by rw [hl]) hwcs
          obtain ⟨hsc, hwf, hlen⟩ := hpre
          rw [← hq.1]
          refine ⟨by simp only [Plan.scans]; rw [hsc], ?_⟩
          simp only [Plan.wfB, Bool.and_eq_true]
          refine ⟨?_, hwf⟩
          rw [hlen]
          exact had
  termination_by p => p.psize
  decreasing_by
    all_goals simp [Plan.psize, PlanList.plsize, mkFilterNode] <;> omega
/-- Child loop of `PredicatePushdownRule.applyRecursive` preserves the
scan list, well-formedness and the child count. -/
theorem ppList_preserve : (l : PlanList) → ∀ l' b, ppList l = some (l', b) →
    l.wfList = true →
    l'.scansList = l.scansList ∧ l'.wfList = true ∧ l'.length = l.length
  | .nil, l', b => by
      intro hl _
      rw [ppList_nil_eq] at hl
      simp only [Option.some_inj, Prod.mk.injEq] at hl
      rw [← hl.1]
      exact ⟨rfl, rfl, rfl⟩
  | .cons h t, l', b => by
      intro hl hw
      have hws := hw
      simp only [PlanList.wfList, Bool.and_eq_true] at hws
      obtain ⟨hwh, hwt⟩ := hws
      rw [ppList_cons_eq h t] at hl
      cases hh : ppApply h with
      | none => rw [hh] at hl; simp at hl
      | some rh =>
          cases ht : ppList t with
          | none => rw [hh, ht] at hl; simp at hl
          | some rt =>
              rw [hh, ht] at hl
              simp only [Option.some_bind, Option.map_some',
                Option.some_inj, Prod.mk.injEq] at hl
              have hph := ppApply_preserve h rh.1 rh.2 (by rw [hh]) hwh
              have hpt := ppList_preserve t rt.1 rt.2 (by rw [ht]) hwt
              rw [← hl.1]
              refine ⟨?_, ?_, ?_⟩
              · simp only [PlanList.scansList]
                rw [hpt.1]
                cases hb : rh.2 <;> simp only [if_true, if_false,
                  Bool.false_eq_true, reduceIte]
                rw [hph.1]
              · simp only [PlanList.wfList, Bool.and_eq_true]
                refine ⟨?_, hpt.2.1⟩
                cases hb : rh.2 <;> simp only [if_true, if_false,
                  Bool.false_eq_true, reduceIte]
                · exact hwh
                · exact hph.2
              · simp only [PlanList.length]
                rw [hpt.2.2]
  termination_by l => l.plsize
  decreasing_by
    all_goals simp [Plan.psize, PlanList.plsize] <;> omega
end

/-- `prList` on the empty list. -/
theorem prList_nil_eq : prList .nil = (.nil, false) := by
  simp [prList]

/-- `prList` on a cons. -/
theorem prList_cons_eq (h : Plan) (t : PlanList) :
    prList (.cons h t) =
      (.cons (if (prApply h).2 then (prApply h).1 else h) (prList t).1,
        (prApply h).2 || (prList t).2) := by
  simp [prList]

/-- The redundant-projection elimination rewrite. -/
theorem prApply_rewrite_eq (d cd : NodeData) (ccs : PlanList)
    (h : d.nodeType = "project" ∧ isRedundantProjection d.projections) :
    prApply (.node d (.cons (.node cd ccs) .nil)) =
      (.node cd (prList ccs).1, true) := by
  simp [prApply, h]

/-- `prApply` recursion at a single-child node that is not a redundant
projection. -/
theorem prApply_single_eq (d cd : NodeData) (ccs : PlanList)
    (h : ¬(d.nodeType = "project" ∧ isRedundantProjection d.projections)) :
    prApply (.node d (.cons (.node cd ccs) .nil)) =
      (.node d (prList (.cons (.node cd ccs) .nil)).1,
        (prList (.cons (.node cd ccs) .nil)).2) := by
  simp [prApply, h]

/-- `prApply` at a childless node. -/
theorem prApply_nil_eq (d : NodeData) :
    prApply (.node d .nil) = (.node d .nil, false) := by
  simp [prApply, prList]

/-- `prApply` at a node with two or more children. -/
theorem prApply_many_eq (d : NodeData) (c0 c1 : Plan) (t : PlanList) :
    prApply (.node d (.cons c0 (.cons c1 t))) =
      (.node d (prList (.cons c0 (.cons c1 t))).1,
        (prList (.cons c0 (.cons c1 t))).2) := by
  simp [prApply]

mutual
/-- `ProjectionPushdownRule.applyRecursive` preserves the scan list and
well-formedness of a well-formed plan (a redundant `Project[*]` has
exactly one child, which replaces it). -/
theorem prApply_preserve : (p : Plan) → p.wfB = true →
    (prApply p).1.scans = p.scans ∧ (prApply p).1.wfB = true
  | .node d (.cons (.node cd ccs) .nil), hw => by
      have hws := hw
      simp only [Plan.wfB, PlanList.wfList, PlanList.length,
        Bool.and_eq_true] at hws
      obtain ⟨had, ⟨hac, hwccs⟩, -⟩ := hws
      have hlp := prList_preserve ccs hwccs
      by_cases hr : d.nodeType = "project" ∧ isRedundantProjection d.projections
      · rw [prApply_rewrite_eq d cd ccs hr]
        constructor
        · simp only [Plan.scans]
          rw [hlp.1, hr.1]
          simp [Plan.scans, PlanList.scansList]
        · simp only [Plan.wfB, Bool.and_eq_true]
          rw [hlp.2.2]
          exact ⟨hac, hlp.2.1⟩
      · rw [prApply_single_eq d cd ccs hr]
        have hwl : (PlanList.cons (.node cd ccs) .nil).wfList = true := by
          simp only [PlanList.wfList, Plan.wfB, Bool.and_eq_true]
          exact ⟨⟨hac, hwccs⟩, trivial⟩
        have hl2 := prList_preserve (.cons (.node cd ccs) .nil) hwl
        constructor
        · simp only [Plan.scans]
          rw [hl2.1]
        · simp only [Plan.wfB, Bool.and_eq_true]
          rw [hl2.2.2]
          exact ⟨had, hl2.2.1⟩
  | .node d .nil, hw => by
      rw [prApply_nil_eq d]
      exact ⟨rfl, hw⟩
  | .node d (.cons c0 (.cons c1 t)), hw => by
      have hws := hw
      simp only [Plan.wfB, Bool.and_eq_true] at hws
      obtain ⟨had, hwcs⟩ := hws
      have hl2 := prList_preserve (.cons c0 (.cons c1 t)) hwcs
      rw [prApply_many_eq d c0 c1 t]
      constructor
      · simp only [Plan.scans]
        rw [hl2.1]
      · simp only [Plan.wfB, Bool.and_eq_true]
        rw [hl2.2.2]
        exact ⟨had, hl2.2.1⟩
  termination_by p => p.psize
  decreasing_by
    all_goals simp [Plan.psize, PlanList.plsize] <;> omega
/-- Child loop of `ProjectionPushdownRule.applyRecursive` preserves the
scan list, well-formedness and the child count. -/
theorem prList_preserve : (l : PlanList) → l.wfList = true →
    (prList l).1.scansList = l.scansList ∧ (prList l).1.wfList = true ∧
      (prList l).1.length = l.length
  | .nil, _ => by
      rw [prList_nil_eq]
      exact ⟨rfl, rfl, rfl⟩
  | .cons h t, hw => by
      have hws := hw
      simp only [PlanList.wfList, Bool.and_eq_true] at hws
      obtain ⟨hwh, hwt⟩ := hws
      have hph := prApply_preserve h hwh
      have hpt := prList_preserve t hwt
      rw [prList_cons_eq h t]
      refine ⟨?_, ?_, ?_⟩
      · simp only [PlanList.scansList]
        rw [hpt.1]
        cases hb : (prApply h).2 <;>
          simp only [if_true, if_false, Bool.false_eq_true, reduceIte]
        rw [hph.1]
      · simp only [PlanList.wfList, Bool.and_eq_true]
        refine ⟨?_, hpt.2.1⟩
        cases hb : (prApply h).2 <;>
          simp only [if_true, if_false, Bool.false_eq_true, reduceIte]
        · exact hwh
        · exact hph.2
      · simp only [PlanList.length]
        rw [hpt.2.2]
  termination_by l => l.plsize
  decreasing_by
    all_goals simp [Plan.psize, PlanList.plsize] <;> omega
end

/-- One pass of the rule loop preserves the scan list and
well-formedness. -/
theorem runRulesOnce_preserve (p q : Plan) (b : Bool)
    (h : runRulesOnce p = some (q, b)) (hw : p.wfB = true) :
    q.scans = p.scans ∧ q.wfB = true := by
  unfold runRulesOnce at h
  cases hpp : ppApply p with
  | none => rw [hpp] at h; simp at h
  | some r1 =>
      rw [hpp] at h
      simp only [cfApply, jrApply] at h
      have hpre1 : (if r1.2 then r1.1 else p).scans = p.scans ∧
          (if r1.2 then r1.1 else p).wfB = true := by
        cases hb : r1.2 with
        | false =>
            simp only [Bool.false_eq_true, reduceIte]
            exact ⟨by simp, hw⟩
        | true =>
            simp only [reduceIte]
            exact ppApply_preserve p r1.1 r1.2 (by rw [hpp]) hw
      have hpre2 := prApply_preserve (if r1.2 then r1.1 else p) hpre1.2
      have hq : q = (if (prApply (if r1.2 then r1.1 else p)).2 then
          (prApply (if r1.2 then r1.1 else p)).1
          else (if r1.2 then r1.1 else p)) := by
        simp only [Option.some_inj, Prod.mk.injEq] at h
        exact h.1.symm
      rw [hq]
      cases hb2 : (prApply (if r1.2 then r1.1 else p)).2 with
      | false =>
          simp only [Bool.false_eq_true, reduceIte]
          exact hpre1
      | true =>
          simp only [reduceIte]
          exact ⟨hpre2.1.trans hpre1.1, hpre2.2⟩

/-- The bounded fixed-point iteration of the rule-based optimizer
preserves the scan list and well-formedness. -/
theorem rbLoop_preserve : (n : Nat) → (p q : Plan) → rbLoop n p = some q →
    p.wfB = true → q.scans = p.scans ∧ q.wfB = true
  | 0, p, q, h, hw => by
      simp only [rbLoop, Option.some_inj] at h
      rw [← h]
      exact ⟨rfl, hw⟩
  | n + 1, p, q, h, hw => by
      simp only [rbLoop] at h
      cases hr : runRulesOnce p with
      | none => rw [hr] at h; simp at h
      | some r =>
          rw [hr] at h
          dsimp only at h
          have hpre := runRulesOnce_preserve p r.1 r.2 (by rw [hr]) hw
          cases hb : r.2 with
          | false =>
              rw [hb] at h
              simp only [Bool.false_eq_true, reduceIte,
                Option.some_inj] at h
              rw [← h]
              exact hpre
          | true =>
              rw [hb] at h
              simp only [reduceIte] at h
              have hrec := rbLoop_preserve n r.1 q h hpre.2
              exact ⟨hrec.1.trans hpre.1, hrec.2⟩

/-- `RuleBasedOptimizer.Optimize` preserves the scan list and
well-formedness of a well-formed input. -/
theorem rbOptimize_preserve (p q : Plan) (h : rbOptimize p = some q)
    (hw : p.wfB = true) : q.scans = p.scans ∧ q.wfB = true := by
  unfold rbOptimize at h
  have hcw : (p.clone 0).1.wfB = true := by
    rw [wf_clone]
    exact hw
  have hres := rbLoop_preserve 10 (p.clone 0).1 q h hcw
  exact ⟨hres.1.trans (scans_clone p 0), hres.2⟩

/-- `metaPut` changes only the metadata map. -/
theorem metaPut_nodeType (d : NodeData) (k v : String) :
    (metaPut d k v).nodeType = d.nodeType := rfl

/-- `metaPut` changes only the metadata map. -/
theorem metaPut_tableName (d : NodeData) (k v : String) :
    (metaPut d k v).tableName = d.tableName := rfl

/-- Whenever `selectPhysicalOperators` succeeds, the result is the same
node with possibly extended metadata over the recursively processed
children. -/
theorem selectPhys_shape (st : CatalogState) (d : NodeData) (cs : PlanList)
    (q : Plan) (hq : selectPhys st (.node d cs) = some q) :
    ∃ D cs', q = .node D cs' ∧ D.nodeType = d.nodeType ∧
      D.tableName = d.tableName ∧ selectPhysList st cs = some cs' := by
  rw [selectPhys.eq_def] at hq
  dsimp only at hq
  by_cases hj : d.nodeType = "join"
  · rw [if_pos hj] at hq
    cases cs with
    | nil => simp at hq
    | cons c0 tl =>
        cases tl with
        | nil => simp at hq
        | cons c1 t2 =>
            dsimp only at hq
            cases hc0 : card st c0 with
            | none => rw [hc0] at hq; simp at hq
            | some leftCard =>
                rw [hc0] at hq
                dsimp only at hq
                cases hc1 : card st c1 with
                | none => rw [hc1] at hq; simp at hq
                | some rightCard =>
                    rw [hc1] at hq
                    dsimp only at hq
                    cases hsl : selectPhysList st (.cons c0 (.cons c1 t2)) with
                    | none => rw [hsl] at hq; simp at hq
                    | some cs' =>
                        rw [hsl] at hq
                        dsimp only at hq
                        simp only [Option.some_inj] at hq
                        refine ⟨_, cs', hq.symm, ?_, ?_, rfl⟩ <;>
                          split_ifs <;> simp [metaPut]
  · rw [if_neg hj] at hq
    by_cases ha : d.nodeType = "aggregate"
    · rw [if_pos ha] at hq
      cases hcd : card st (.node d cs) with
      | none => rw [hcd] at hq; simp at hq
      | some cardinality =>
          rw [hcd] at hq
          dsimp only at hq
          cases hsl : selectPhysList st cs with
          | none => rw [hsl] at hq; simp at hq
          | some cs' =>
              rw [hsl] at hq
              dsimp only at hq
              simp only [Option.some_inj] at hq
              refine ⟨_, cs', hq.symm, ?_, ?_, rfl⟩ <;>
                split_ifs <;> simp [metaPut]
    · rw [if_neg ha] at hq
      by_cases hs : d.nodeType = "sort"
      · rw [if_pos hs] at hq
        cases hcd : card st (.node d cs) with
        | none => rw [hcd] at hq; simp at hq
        | some cardinality =>
            rw [hcd] at hq
            dsimp only at hq
            cases hsl : selectPhysList st cs with
            | none => rw [hsl] at hq; simp at hq
            | some cs' =>
                rw [hsl] at hq
                dsimp only at hq
                simp only [Option.some_inj] at hq
                refine ⟨_, cs', hq.symm, ?_, ?_, rfl⟩ <;>
                  split_ifs <;> simp [metaPut]
      · rw [if_neg hs] at hq
        by_cases hsc : d.nodeType = "scan"
        · rw [if_pos hsc] at hq
          cases hsl : selectPhysList st cs with
          | none => rw [hsl] at hq; simp at hq
          | some cs' =>
              rw [hsl] at hq
              dsimp only at hq
              simp only [Option.some_inj] at hq
              exact ⟨_, cs', hq.symm, rfl, rfl, rfl⟩
        · rw [if_neg hsc] at hq
          cases hsl : selectPhysList st cs with
          | none => rw [hsl] at hq; simp at hq
          | some cs' =>
              rw [hsl] at hq
              dsimp only at hq
              simp only [Option.some_inj] at hq
              exact ⟨_, cs', hq.symm, rfl, rfl, rfl⟩

mutual
/-- `selectPhysicalOperators` preserves the scan list: it only edits
metadata. -/
theorem selectPhys_scans (st : CatalogState) : (p : Plan) → ∀ q,
    selectPhys st p = some q → q.scans = p.scans
  | .node d cs, q => by
      intro hq
      obtain ⟨D, cs', hqe, hnt, htn, hlist⟩ := selectPhys_shape st d cs q hq
      rw [hqe]
      simp only [Plan.scans]
      rw [selectPhysList_scans st cs cs' hlist, hnt, htn]
  termination_by p => p.psize
  decreasing_by
    all_goals simp [Plan.psize, PlanList.plsize] <;> omega
/-- The child loop of `selectPhysicalOperators` preserves the scan
lists. -/
theorem selectPhysList_scans (st : CatalogState) : (l : PlanList) → ∀ l',
    selectPhysList st l = some l' → l'.scansList = l.scansList
  | .nil, l' => by
      intro hl
      simp only [selectPhysList, Option.some_inj] at hl
      rw [← hl]
  | .cons h t, l' => by
      intro hl
      simp only [selectPhysList] at hl
      cases hh : selectPhys st h with
      | none => rw [hh] at hl; simp at hl
      | some h' =>
          rw [hh] at hl
          dsimp only at hl
          cases ht : selectPhysList st t with
          | none => rw [ht] at hl; simp at hl
          | some t' =>
              rw [ht] at hl
              dsimp only at hl
              simp only [Option.some_inj] at hl
              rw [← hl]
              simp only [PlanList.scansList]
              rw [selectPhys_scans st h h' hh, selectPhysList_scans st t t' ht]
  termination_by l => l.plsize
  decreasing_by
    all_goals simp [Plan.psize, PlanList.plsize] <;> omega
end

mutual
/-- `propagateCostEstimates` preserves the scan list: it only stamps
estimates. -/
theorem propagate_scans (lg : ℚ → ℚ) (st : CatalogState) : (p : Plan) → ∀ q,
    propagate lg st p = some q → q.scans = p.scans
  | .node d cs, q => by
      intro hq
      simp only [propagate] at hq
      cases hcs : propagateList lg st cs with
      | none => rw [hcs] at hq; simp at hq
      | some cs' =>
          rw [hcs] at hq
          dsimp only at hq
          cases hc : cost lg st (.node d cs') with
          | none => rw [hc] at hq; simp at hq
          | some c =>
              rw [hc] at hq
              dsimp only at hq
              simp only [Option.some_inj] at hq
              rw [← hq]
              simp only [Plan.scans]
              rw [propagateList_scans lg st cs cs' hcs]
  termination_by p => p.psize
  decreasing_by
    all_goals simp [Plan.psize, PlanList.plsize] <;> omega
/-- The child loop of `propagateCostEstimates` preserves the scan
lists. -/
theorem propagateList_scans (lg : ℚ → ℚ) (st : CatalogState) :
    (l : PlanList) → ∀ l', propagateList lg st l = some l' →
      l'.scansList = l.scansList
  | .nil, l' => by
      intro hl
      simp only [propagateList, Option.some_inj] at hl
      rw [← hl]
  | .cons h t, l' => by
      intro hl
      simp only [propagateList] at hl
      cases hh : propagate lg st h with
      | none => rw [hh] at hl; simp at hl
      | some h' =>
          rw [hh] at hl
          dsimp only at hl
          cases ht : propagateList lg st t with
          | none => rw [ht] at hl; simp at hl
          | some t' =>
              rw [ht] at hl
              dsimp only at hl
              simp only [Option.some_inj] at hl
              rw [← hl]
              simp only [PlanList.scansList]
              rw [propagate_scans lg st h h' hh,
                propagateList_scans lg st t t' ht]
  termination_by l => l.plsize
  decreasing_by
    all_goals simp [Plan.psize, PlanList.plsize] <;> omega
end

/-- `CostBasedOptimizer.Optimize` preserves the scan list of a
well-formed input. -/
theorem cbOptimize_scans (lg : ℚ → ℚ) (st : CatalogState) (p q : Plan)
    (h : cbOptimize lg st p = some q) (hw : p.wfB = true) :
    q.scans = p.scans := by
  unfold cbOptimize at h
  cases hrb : rbOptimize p with
  | none => rw [hrb] at h; simp at h
  | some r =>
      rw [hrb] at h
      dsimp only at h
      cases hjo : optJoinOrder lg st (r.clone 0).1 with
      | none => rw [hjo] at h; simp at h
      | some r2 =>
          rw [hjo] at h
          dsimp only at h
          cases hsp : selectPhys st r2 with
          | none => rw [hsp] at h; simp at h
          | some r3 =>
              rw [hsp] at h
              dsimp only at h
              cases hct : cost lg st r3 with
              | none => rw [hct] at h; simp at h
              | some c =>
                  rw [hct] at h
                  dsimp only at h
                  have h1 := rbOptimize_preserve p r hrb hw
                  have h2 := optJoinOrder_id lg st (r.clone 0).1 r2 hjo
                  have h3 := selectPhys_scans st r2 r3 hsp
                  have h4 := propagate_scans lg st r3 q h
                  rw [h4, h3, h2, scans_clone, h1.1]

/-- One rule pass is the identity (with no change reported) on a
childless node. -/
theorem runRulesOnce_leaf (d : NodeData) :
    runRulesOnce (.node d .nil) = some (.node d .nil, false) := by
  simp [runRulesOnce, ppApply_nil_eq, prApply_nil_eq, cfApply, jrApply]

/-- The rule-based optimizer returns a childless node unchanged, up to
the fresh clone id. -/
theorem rbOptimize_leaf (d : NodeData) :
    rbOptimize (.node d .nil) = some (.node { d with id := 1 } .nil) := by
  show rbLoop 10 ((Plan.node d .nil).clone 0).1 = _
  have hc : ((Plan.node d .nil).clone 0).1 = .node { d with id := 1 } .nil := rfl
  rw [hc]
  simp [rbLoop, runRulesOnce_leaf]

/-- Claim C6: a successful run of either optimizer (rule-based or
cost-based) preserves the multiset of Scan table names of a well-formed
input plan — in fact it preserves the scan-name list literally. -/
theorem c6_scan_multiset_preserved (lg : ℚ → ℚ) (st : CatalogState)
    (p : Plan) (hw : p.wfB = true) :
    (∀ q, rbOptimize p = some q →
      (q.scans : Multiset String) = (p.scans : Multiset String)) ∧
    (∀ q, cbOptimize lg st p = some q →
      (q.scans : Multiset String) = (p.scans : Multiset String)) := by
  constructor
  · intro q h
    rw [(rbOptimize_preserve p q h hw).1]
  · intro q h
    rw [cbOptimize_scans lg st p q h hw]

/-- Concrete check of `c6_scan_multiset_preserved`: the rule-based
optimizer on `Scan(users)` succeeds and preserves the scan multiset. -/
theorem c6_scan_multiset_preserved_witness :
    (mkScanNode "users" "").wfB = true ∧
    rbOptimize (mkScanNode "users" "") = some (.node { zeroData with
      nodeType := "scan"
      tableName := "users"
      aliasName := ""
      id := 1 } .nil) ∧
    ((Plan.node { zeroData with
      nodeType := "scan"
      tableName := "users"
      aliasName := ""
      id := 1 } .nil).scans : Multiset String) =
      ((mkScanNode "users" "").scans : Multiset String) := by
  have hw : (mkScanNode "users" "").wfB = true := rfl
  have hrb : rbOptimize (mkScanNode "users" "") = some (.node { zeroData with
      nodeType := "scan"
      tableName := "users"
      aliasName := ""
      id := 1 } .nil) :=
    rbOptimize_leaf { zeroData with
      nodeType := "scan"
      tableName := "users"
      aliasName := "" }
  exact ⟨hw, hrb,
    (c6_scan_multiset_preserved id CatalogState.empty _ hw).1 _ hrb⟩

end IdealQuery
